import Mathlib

/-!
# ibconv: a verification development

A shallow embedding of `main.go` of ibconv (a bulk image converter) and
theorems about its resolution parser, its format check, its directory-walk
callback and its image processor.

Go strings are byte sequences: `GoString` is a list of bytes, `len` is
`List.length` and a slice `s[i:j]` is `List.take`/`List.drop`.  The functions
of the Go standard library that the program calls (`strings.Split`,
`strconv.Atoi`, `strings.ToLower`, `filepath.Ext`, `filepath.Join`, ...) are
transcribed for a 64-bit Unix target; the Unicode case table behind
`strings.ToLower` is a parameter.  What the operating system and the image
libraries answer (does a file open, does it decode, ...) is not computed: it
is read from a record of outcomes, so that every theorem quantifies over all
of them.  A panic of the Go runtime is an outcome of its own.
-/

namespace Ibconv

/-! ## Go strings -/

/-- A Go string: an immutable sequence of bytes. -/
abbrev GoString := List UInt8

/-- The bytes (UTF-8) of a string literal of the source. -/
def lit (s : String) : GoString := s.toList.flatMap String.utf8EncodeChar

/-! ## `strings.Split` with a one-byte separator -/

/-- Go `strings.Split(s, sep)` for a separator of one byte: the fields between
the occurrences of `sep`, one more field than there are separators. -/
def Split (sep : UInt8) : GoString → List GoString
  | [] => [[]]
  | c :: cs =>
    if c = sep then [] :: Split sep cs
    else
      match Split sep cs with
      | [] => [[c]]
      | f :: fs => (c :: f) :: fs

/-! ## `strconv.Atoi` -/

/-- The two error values of package strconv that a base-10 parse can wrap. -/
inductive NumError where
  | ErrSyntax
  | ErrRange
  deriving DecidableEq, Repr

/-- Go `strconv.IntSize` on the 64-bit targets. -/
def intSize : Nat := 64

/-- Go `maxUint64`. -/
def maxUint64 : Nat := 2 ^ 64 - 1

/-- Byte test `'0' <= c && c <= '9'`. -/
def isDigit (c : UInt8) : Bool := 48 ≤ c.toNat && c.toNat ≤ 57

/-- The loop of `strconv.ParseUint(s, 10, 0)` over the bytes of `s`, with the
accumulator `n` (a uint64).  A byte that is not a decimal digit is a syntax
error (a letter has a digit value of at least 10, the base; anything else is
no digit at all; the underscore is accepted only for base 0).  `cutoff` is the
smallest number with `cutoff*10 > maxUint64`, `maxVal` is `1<<64 - 1`. -/
def parseUintLoop (n : Nat) : GoString → Nat × Option NumError
  | [] => (n, none)
  | c :: cs =>
    if isDigit c then
      let d := c.toNat - 48
      if n ≥ maxUint64 / 10 + 1 then (2 ^ intSize - 1, some .ErrRange)
      else
        let n10 := (n * 10) % 2 ^ 64
        let n1 := (n10 + d) % 2 ^ 64
        if n1 < n10 ∨ n1 > 2 ^ intSize - 1 then (2 ^ intSize - 1, some .ErrRange)
        else parseUintLoop n1 cs
    else (0, some .ErrSyntax)

/-- Go `strconv.ParseUint(s, 10, 0)`. -/
def ParseUint (s : GoString) : Nat × Option NumError :=
  if s = [] then (0, some .ErrSyntax) else parseUintLoop 0 s

/-- Two's-complement wrap-around of an integer into the range of `int64`. -/
def wrapInt64 (z : Int) : Int := (z + 2 ^ 63) % 2 ^ 64 - 2 ^ 63

/-- Go `strconv.ParseInt(s, 10, 0)`: pick off the sign, parse the rest as an
unsigned number, check it against `cutoff = 1 << (IntSize-1)`, convert with
`int64(un)` and negate. -/
def ParseInt (s : GoString) : Int × Option NumError :=
  match s with
  | [] => (0, some .ErrSyntax)
  | c :: cs =>
    let neg := decide (c = 45)
    let rest := if c = 43 ∨ c = 45 then cs else s
    match ParseUint rest with
    | (_, some .ErrSyntax) => (0, some .ErrSyntax)
    | (un, _) =>
      let cutoff : Nat := 2 ^ (intSize - 1)
      if !neg && un ≥ cutoff then (wrapInt64 (cutoff - 1 : Nat), some .ErrRange)
      else if neg && un > cutoff then (wrapInt64 (-(wrapInt64 cutoff)), some .ErrRange)
      else
        let n := wrapInt64 un
        (if neg then wrapInt64 (-n) else n, none)

/-- The loop of the fast path of `strconv.Atoi`: `ch -= '0'; if ch > 9` is a
syntax error, else `n = n*10 + int(ch)` in `int` arithmetic. -/
def atoiFastLoop (n : Int) : GoString → Option Int
  | [] => some n
  | c :: cs =>
    if isDigit c then atoiFastLoop (wrapInt64 (n * 10 + ((c.toNat - 48 : Nat) : Int))) cs
    else none

/-- Go `strconv.Atoi(s)` with a 64-bit `int`: strings of 1 to 18 bytes take a
fast path, all others go through `ParseInt(s, 10, 0)`. -/
def Atoi (s : GoString) : Int × Option NumError :=
  if 0 < s.length ∧ s.length < 19 then
    match s with
    | [] => (0, some .ErrSyntax)
    | c :: cs =>
      let body := if c = 45 ∨ c = 43 then cs else s
      if body.length < 1 then (0, some .ErrSyntax)
      else
        match atoiFastLoop 0 body with
        | none => (0, some .ErrSyntax)
        | some n => (if c = 45 then wrapInt64 (-n) else n, none)
  else ParseInt s

/-! ## What the specification calls a valid integer -/

/-- The number written by a run of decimal digits that continues the value `n`. -/
def decimalFrom : GoString → Nat → Nat
  | [], n => n
  | c :: cs, n => decimalFrom cs (n * 10 + (c.toNat - 48))

/-- The number written by a run of decimal digits. -/
def decimalValue (ds : GoString) : Nat := decimalFrom ds 0

/-- The range of a 64-bit Go `int`. -/
def InIntRange (v : Int) : Prop := -(2 ^ 63 : Int) ≤ v ∧ v ≤ 2 ^ 63 - 1

/-- The words of the specification for a valid integer: an optional sign, then
digits only (at least one), the value within the range of `int`. -/
def IsDecimalInt (s : GoString) (v : Int) : Prop :=
  ∃ ds : GoString, ds ≠ [] ∧ (∀ c ∈ ds, isDigit c = true) ∧
    ((s = ds ∧ v = decimalValue ds) ∨ (s = 43 :: ds ∧ v = decimalValue ds) ∨
      (s = 45 :: ds ∧ v = -(decimalValue ds : Int))) ∧ InIntRange v

/-! ## `parseResolution` -/

/-- The errors `parseResolution` builds with `fmt.Errorf`. -/
inductive ResError where
  /-- The error "invalid format, expected W,H". -/
  | invalidFormat
  /-- The error "invalid width: ..." wrapping the error of `Atoi`. -/
  | invalidWidth (e : NumError)
  /-- The error "invalid height: ..." wrapping the error of `Atoi`. -/
  | invalidHeight (e : NumError)
  /-- The error "width and height must be positive". -/
  | nonPositive
  deriving DecidableEq, Repr

/-- Go conversion `uint(w)` of an `int` on a 64-bit target. -/
def uintOfInt (w : Int) : Nat := (w % 2 ^ 64).toNat

/-- Go `parseResolution(res)`: the triple `(width, height, err)`. -/
def parseResolution (res : GoString) : Nat × Nat × Option ResError :=
  let parts := Split 44 res
  if parts.length ≠ 2 then (0, 0, some .invalidFormat)
  else
    match Atoi (parts.getD 0 []) with
    | (_, some e) => (0, 0, some (.invalidWidth e))
    | (w, none) =>
      match Atoi (parts.getD 1 []) with
      | (_, some e) => (0, 0, some (.invalidHeight e))
      | (h, none) =>
        if w ≤ 0 ∨ h ≤ 0 then (0, 0, some .nonPositive)
        else (uintOfInt w, uintOfInt h, none)

/-! ## `strings.ToLower` -/

/-- Go `utf8.RuneError`, the rune U+FFFD that stands for an invalid encoding. -/
def RuneError : Nat := 0xFFFD

/-- Byte test for a UTF-8 continuation byte within `lo..hi`. -/
def inRange (lo hi : Nat) (b : UInt8) : Bool := lo ≤ b.toNat && b.toNat ≤ hi

/-- Go `utf8.DecodeRuneInString(s)`: the first rune of `s` and its width in
bytes; `(RuneError, 0)` for the empty string and `(RuneError, 1)` for a byte
that starts no valid encoding (overlong forms, surrogates and values above
U+10FFFF are invalid). -/
def DecodeRune : GoString → Nat × Nat
  | [] => (RuneError, 0)
  | b0 :: t =>
    let x := b0.toNat
    if x < 0x80 then (x, 1)
    else if x < 0xC2 then (RuneError, 1)
    else if x < 0xE0 then
      match t with
      | b1 :: _ =>
        if inRange 0x80 0xBF b1 then ((x - 0xC0) * 64 + (b1.toNat - 0x80), 2) else (RuneError, 1)
      | _ => (RuneError, 1)
    else if x < 0xF0 then
      match t with
      | b1 :: b2 :: _ =>
        if inRange (if x = 0xE0 then 0xA0 else 0x80) (if x = 0xED then 0x9F else 0xBF) b1
            && inRange 0x80 0xBF b2 then
          ((x - 0xE0) * 4096 + (b1.toNat - 0x80) * 64 + (b2.toNat - 0x80), 3)
        else (RuneError, 1)
      | _ => (RuneError, 1)
    else if x < 0xF5 then
      match t with
      | b1 :: b2 :: b3 :: _ =>
        if inRange (if x = 0xF0 then 0x90 else 0x80) (if x = 0xF4 then 0x8F else 0xBF) b1
            && inRange 0x80 0xBF b2 && inRange 0x80 0xBF b3 then
          ((x - 0xF0) * 262144 + (b1.toNat - 0x80) * 4096 + (b2.toNat - 0x80) * 64
            + (b3.toNat - 0x80), 4)
        else (RuneError, 1)
      | _ => (RuneError, 1)
    else (RuneError, 1)

/-- Go `utf8.AppendRune(nil, r)`: the UTF-8 encoding of a rune; surrogates and
values above U+10FFFF are written as `RuneError`. -/
def EncodeRune (r : Nat) : GoString :=
  if r ≤ 0x7F then [UInt8.ofNat r]
  else if r ≤ 0x7FF then [UInt8.ofNat (0xC0 + r / 64), UInt8.ofNat (0x80 + r % 64)]
  else if r > 0x10FFFF ∨ (0xD800 ≤ r ∧ r ≤ 0xDFFF) then [0xEF, 0xBF, 0xBD]
  else if r ≤ 0xFFFF then
    [UInt8.ofNat (0xE0 + r / 4096), UInt8.ofNat (0x80 + r / 64 % 64), UInt8.ofNat (0x80 + r % 64)]
  else
    [UInt8.ofNat (0xF0 + r / 262144), UInt8.ofNat (0x80 + r / 4096 % 64),
      UInt8.ofNat (0x80 + r / 64 % 64), UInt8.ofNat (0x80 + r % 64)]

/-- The loop of Go `strings.Map(mapping, s)` for a mapping that drops no rune:
decode a rune, write the encoding of its image, go on behind it.  The first
argument bounds the number of runes (every rune takes at least one byte). -/
def mapRunes (mapping : Nat → Nat) : Nat → GoString → GoString
  | 0, _ => []
  | _ + 1, [] => []
  | n + 1, b :: t =>
    EncodeRune (mapping (DecodeRune (b :: t)).1) ++
      mapRunes mapping n ((b :: t).drop (DecodeRune (b :: t)).2)

/-- Go `strings.Map(mapping, s)`. -/
def Map (mapping : Nat → Nat) (s : GoString) : GoString := mapRunes mapping s.length s

/-- Go `unicode.ToLower(r)`: up to U+007F it maps `A`..`Z` to `a`..`z`; above, it
looks the rune up in the table `unicode.CaseRanges` of the standard library.
That lookup is the parameter `tbl`: every theorem holds for every table. -/
def unicodeToLower (tbl : Nat → Nat) (r : Nat) : Nat :=
  if r ≤ 0x7F then (if 65 ≤ r ∧ r ≤ 90 then r + 32 else r)
  else tbl r

/-- Byte test `'A' <= c && c <= 'Z'`. -/
def isUpper (c : UInt8) : Bool := 65 ≤ c.toNat && c.toNat ≤ 90

/-- Go `strings.ToLower(s)`: a string of ASCII bytes is returned as it is when it
has no upper-case letter, else with `'a' - 'A'` added to each upper-case letter;
any other string goes through `Map(unicode.ToLower, s)`. -/
def ToLower (tbl : Nat → Nat) (s : GoString) : GoString :=
  if s.all (fun c => c.toNat < 0x80) then
    if !s.any isUpper then s
    else s.map (fun c => if isUpper c then c + 32 else c)
  else Map (unicodeToLower tbl) s

/-! ## Package `path/filepath` on Unix -/

/-- The scan of `filepath.Ext` from the last byte backwards: `rev` is what is
left of the reversed path, `acc` the bytes already passed. -/
def extScan : GoString → GoString → GoString
  | [], _ => []
  | c :: rest, acc =>
    if c = 47 then []
    else if c = 46 then c :: acc
    else extScan rest (c :: acc)

/-- Go `filepath.Ext(path)`: the suffix beginning at the final dot in the final
element of `path`; empty if there is no dot. -/
def Ext (path : GoString) : GoString := extScan path.reverse []

/-- One path element of `filepath.Clean`, on the elements kept so far (last one
first): empty elements and `.` are dropped, `..` removes the element before it,
or is kept when there is none to remove and the path is not rooted. -/
def cleanStep (rooted : Bool) (stack : List GoString) (c : GoString) : List GoString :=
  if c = [] ∨ c = [46] then stack
  else if c = [46, 46] then
    match stack with
    | top :: rest => if top = [46, 46] then c :: stack else rest
    | [] => if rooted then [] else [c]
  else c :: stack

/-- Go `filepath.Clean(path)`, by path elements: the shortest equivalent path. -/
def Clean (path : GoString) : GoString :=
  if path = [] then [46]
  else
    let rooted := decide (path.head? = some 47)
    let stack := (Split 47 path).foldl (cleanStep rooted) []
    let body := List.intercalate [47] stack.reverse
    if rooted then 47 :: body
    else if stack = [] then [46]
    else body

/-- Go `filepath.Join(elem...)`: the elements from the first non-empty one on,
joined with slashes and cleaned; empty if all are empty. -/
def Join (elem : List GoString) : GoString :=
  match elem.dropWhile (fun e => decide (e = [])) with
  | [] => []
  | es => Clean (List.intercalate [47] es)

/-- Go `filepath.Dir(path)`: all but the last element of `path`, cleaned. -/
def Dir (path : GoString) : GoString :=
  Clean (path.reverse.dropWhile (fun c => decide (c ≠ 47))).reverse

/-! ## The configuration and the outcomes of the outside world -/

deriving instance DecidableEq for Except

/-- Go `Config`: the struct built once from the flags. -/
structure Config where
  InputFolder : GoString
  OutputFolder : GoString
  TargetFormat : GoString
  TargetWidth : Nat
  TargetHeight : Nat
  Verbose : Bool
  Help : Bool
  deriving DecidableEq, Repr

/-- An error value of the operating system (`*fs.PathError` and the like);
`os.IsNotExist` tells the first kind from the others. -/
inductive OsError where
  | notExist
  | other (code : Nat)
  deriving DecidableEq, Repr

/-- A decoded image: its bounds and a tag standing for its pixels. -/
structure Image where
  width : Nat
  height : Nat
  pixels : Nat
  deriving DecidableEq, Repr

/-- What the operating system and the libraries answer to the calls of one file's
processing.  The program only reads these answers. -/
structure Sys where
  /-- The answer of `filepath.Rel(basepath, targpath)`. -/
  rel : GoString → GoString → Except Nat GoString
  /-- The answer of `os.MkdirAll(path, 0755)`: `none` is the nil error. -/
  mkdirAll : GoString → Option OsError
  /-- The answer of `os.Open(path)`: the bytes of the file. -/
  openFile : GoString → Except OsError (List UInt8)
  /-- The answer of `image.Decode(file)`: the image and the name of its format, or
  the name of the format tried and the error. -/
  decode : List UInt8 → Except (GoString × Nat) (Image × GoString)
  /-- Package `resize`: the pixels that `resize.Resize(width, height, img,
  resize.Lanczos3)` computes. -/
  resample : Nat → Nat → Image → Nat
  /-- Package `resize`: the width it computes from the aspect ratio of the source
  when it is asked for the width 0 and the given height. -/
  aspectWidth : Nat → Image → Nat
  /-- Package `resize`: the height it computes from the aspect ratio of the source
  when it is asked for the height 0 and the given width. -/
  aspectHeight : Nat → Image → Nat
  /-- The answer of `os.Create(path)`. -/
  create : GoString → Option OsError
  /-- The bytes `jpeg.Encode(w, img, &jpeg.Options(Quality))` writes and its error. -/
  jpegEncode : Image → Nat → List UInt8 × Option Nat
  /-- The bytes `png.Encode(w, img)` writes and its error. -/
  pngEncode : Image → List UInt8 × Option Nat

/-! ## `processImage` -/

/-- Modelled from the spec: package `resize` (github.com/nfnt/resize), which
`processImage` calls, is not part of the repository.  Section 4.3 of the
specification, as the documentation of the package: the image returned has
exactly the width and height asked for, whatever the aspect ratio of the
source; a side asked for as 0 is computed from the aspect ratio of the source
(floating point: an answer of the world here).  The pixels are an answer of the
world. -/
def Resize (sys : Sys) (width height : Nat) (img : Image) : Image :=
  ⟨if width = 0 then sys.aspectWidth height img else width,
   if height = 0 then sys.aspectHeight width img else height,
   sys.resample width height img⟩

/-- The calls `processImage` makes, in the order it makes them. -/
inductive Step where
  | osOpen (path : GoString)
  | imageDecode (file : List UInt8)
  | resizeResize (width height : Nat) (img : Image)
  /-- The call `os.Create(path)` and its error (`none` is nil). -/
  | osCreate (path : GoString) (err : Option OsError)
  | jpegEncode (path : GoString) (img : Image) (quality : Nat) (written : List UInt8)
  | pngEncode (path : GoString) (img : Image) (written : List UInt8)
  /-- The deferred `file.Close()`. -/
  | closeFile (path : GoString)
  /-- The deferred `outFile.Close()`. -/
  | closeOutFile (path : GoString)
  deriving DecidableEq, Repr

/-- The errors `processImage` returns. -/
inductive ProcError where
  /-- The error "could not open file: ...". -/
  | openError (e : OsError)
  /-- The error "could not decode image (format ...): ...". -/
  | decodeError (format : GoString) (e : Nat)
  /-- The error "could not create output file: ...". -/
  | createError (e : OsError)
  /-- The error of `jpeg.Encode` or `png.Encode`, returned as it is. -/
  | encodeError (e : Nat)
  /-- The error "unknown target format: ...". -/
  | unknownFormat (format : GoString)
  deriving DecidableEq, Repr

/-- Go `processImage(inputPath, outputPath, config)`: the calls made and the
error returned (`none` is nil). -/
def processImage (sys : Sys) (inputPath outputPath : GoString) (config : Config) :
    List Step × Option ProcError :=
  match sys.openFile inputPath with
  | .error e => ([.osOpen inputPath], some (.openError e))
  | .ok file =>
    match sys.decode file with
    | .error (format, e) =>
      ([.osOpen inputPath, .imageDecode file, .closeFile inputPath],
        some (.decodeError format e))
    | .ok (img, _) =>
      let resizedImg := Resize sys config.TargetWidth config.TargetHeight img
      let pre : List Step := [.osOpen inputPath, .imageDecode file,
        .resizeResize config.TargetWidth config.TargetHeight img,
        .osCreate outputPath (sys.create outputPath)]
      match sys.create outputPath with
      | some e => (pre ++ [.closeFile inputPath], some (.createError e))
      | none =>
        if config.TargetFormat = lit "jpg" then
          (pre ++ [.jpegEncode outputPath resizedImg 90 (sys.jpegEncode resizedImg 90).1,
              .closeOutFile outputPath, .closeFile inputPath],
            (sys.jpegEncode resizedImg 90).2.map .encodeError)
        else if config.TargetFormat = lit "png" then
          (pre ++ [.pngEncode outputPath resizedImg (sys.pngEncode resizedImg).1,
              .closeOutFile outputPath, .closeFile inputPath],
            (sys.pngEncode resizedImg).2.map .encodeError)
        else
          (pre ++ [.closeOutFile outputPath, .closeFile inputPath],
            some (.unknownFormat config.TargetFormat))

/-- The files of a file system: the bytes at each path that names a file. -/
abbrev Files := GoString → Option (List UInt8)

/-- What one call does to the files: a successful `os.Create` creates or
truncates the file, an encoder writes its bytes into it, all other calls leave
the files alone. -/
def Step.apply (fs : Files) : Step → Files
  | .osCreate p none => Function.update fs p (some [])
  | .jpegEncode p _ _ written => Function.update fs p (some written)
  | .pngEncode p _ written => Function.update fs p (some written)
  | _ => fs

/-- The files after a sequence of calls. -/
def filesAfter (fs : Files) (steps : List Step) : Files := steps.foldl Step.apply fs

/-! ## `runConversion` -/

/-- The type bits of Go `fs.FileMode`, as `DirEntry.Type()` reports them: no bit
for a regular file, else `ModeDir`, `ModeSymlink`, `ModeNamedPipe`,
`ModeSocket`, `ModeDevice`, `ModeDevice|ModeCharDevice` or `ModeIrregular`. -/
inductive FileType where
  | regular
  | dir
  | symlink
  | namedPipe
  | socket
  | device
  | charDevice
  | irregular
  deriving DecidableEq, Repr

/-- Go `os.DirEntry`: the type of the entry; the walk does not follow symbolic
links, so a link is reported as a link. -/
structure DirEntry where
  fileType : FileType
  deriving DecidableEq, Repr

/-- Go `DirEntry.IsDir()`: whether the entry describes a directory. -/
def DirEntry.IsDir (d : DirEntry) : Bool := decide (d.fileType = .dir)

/-- Go `FileMode.IsRegular()`: whether no type bit is set. -/
def DirEntry.IsRegular (d : DirEntry) : Bool := decide (d.fileType = .regular)

/-- One call of the callback by `filepath.WalkDir`: its three arguments, and the
answers of the outside world while the callback runs.  When `err` is nil the
entry `d` is never nil. -/
structure Visit where
  path : GoString
  d : DirEntry
  err : Option OsError
  sys : Sys

/-- The lines the program prints and logs. -/
inductive Line where
  /-- The banner: name, version, author, license. -/
  | banner
  /-- The five lines "Starting ibconv..." to "Target Format: ..." of verbose mode. -/
  | verboseConfig (config : Config)
  /-- The text of `printHelp`. -/
  | helpText
  /-- The line "Scanning folder: ...". -/
  | scanning (folder : GoString)
  /-- The line "Converted: ... -> ...". -/
  | converted (path newPath : GoString)
  /-- The line "Conversion complete.". -/
  | conversionComplete
  /-- The log line "Warning: Could not get relative path for ...". -/
  | warnRelPath (path : GoString) (e : Nat)
  /-- The log line "Warning: Could not create sub-directory for ...". -/
  | warnSubDir (newPath : GoString) (e : OsError)
  /-- The log line "Warning: Failed to process ...". -/
  | warnProcess (path : GoString) (e : ProcError)
  deriving DecidableEq, Repr

/-- What the program does that can be seen from outside. -/
inductive Event where
  | print (l : Line)
  | mkdirAll (path : GoString)
  | processImage (inputPath outputPath : GoString) (steps : List Step)
  deriving DecidableEq, Repr

/-- How a call of the callback ends: it returns an error value (`none` is nil),
or the Go runtime panics. -/
inductive Return where
  | value (err : Option OsError)
  | runtimePanic
  deriving DecidableEq, Repr

/-- The test `ext == ".jpg" || ext == ".jpeg" || ext == ".png" || ext == ".gif"`. -/
def isImageExt (ext : GoString) : Bool :=
  ext = lit ".jpg" || ext = lit ".jpeg" || ext = lit ".png" || ext = lit ".gif"

/-- Lines 177 to 179: the destination path for a relative path and the
lower-cased extension.  The slice `relPath[0 : len(relPath)-len(ext)]` is only
evaluated when it is in range. -/
def newPathOf (config : Config) (relPath ext : GoString) : GoString :=
  let baseName := relPath.take (relPath.length - ext.length)
  let newExt := 46 :: config.TargetFormat
  Join [config.OutputFolder, baseName ++ newExt]

/-- The function literal that `runConversion` passes to `filepath.WalkDir`. -/
def walkFn (tbl : Nat → Nat) (config : Config) (v : Visit) : List Event × Return :=
  match v.err with
  | some e => ([], .value (some e))
  | none =>
    if v.d.IsDir then ([], .value none)
    else
      let ext := ToLower tbl (Ext v.path)
      if isImageExt ext then
        match v.sys.rel config.InputFolder v.path with
        | .error e => ([.print (.warnRelPath v.path e)], .value none)
        | .ok relPath =>
          if relPath.length < ext.length then ([], .runtimePanic)
          else
            let newPath := newPathOf config relPath ext
            match v.sys.mkdirAll (Dir newPath) with
            | some e =>
              ([.mkdirAll (Dir newPath), .print (.warnSubDir newPath e)], .value none)
            | none =>
              let r := processImage v.sys v.path newPath config
              ([.mkdirAll (Dir newPath), .processImage v.path newPath r.1] ++
                (match r.2 with
                 | some e => [.print (.warnProcess v.path e)]
                 | none => if config.Verbose then [.print (.converted v.path newPath)] else []),
               .value none)
      else ([], .value none)

/-- Go `filepath.WalkDir` as the program uses it: the callback is called for the
entries in the order of the walk; the first call that does not return nil ends
the walk, and its error is the result. -/
def walkDir (tbl : Nat → Nat) (config : Config) : List Visit → List Event × Return
  | [] => ([], .value none)
  | v :: vs =>
    match walkFn tbl config v with
    | (ev, .value none) => (ev ++ (walkDir tbl config vs).1, (walkDir tbl config vs).2)
    | (ev, r) => (ev, r)

/-- The answers of the outside world to one run of `runConversion`. -/
structure World where
  /-- The answer of `os.Stat(path)`: whether the path is a directory. -/
  stat : GoString → Except OsError Bool
  /-- The answer of `os.MkdirAll` for the output folder. -/
  mkdirAll : GoString → Option OsError
  /-- The calls `filepath.WalkDir` makes as long as the callback returns nil. -/
  visits : List Visit

/-- How a run of the program ends. -/
inductive Exit where
  /-- The program returns from `main`: exit status 0. -/
  | done
  /-- The calls of `log.Fatalf`, by message: exit status 1. -/
  | fatalResolution (e : ResError)
  | fatalFormat
  | fatalInputNotExist
  | fatalInputStat (e : OsError)
  | fatalInputNotDir
  | fatalOutputDir (e : OsError)
  | fatalWalk (e : OsError)
  /-- A panic of the Go runtime: exit status 2. -/
  | runtimePanic
  deriving DecidableEq, Repr

/-- Go `runConversion(config)`. -/
def runConversion (tbl : Nat → Nat) (w : World) (config : Config) : List Event × Exit :=
  match w.stat config.InputFolder with
  | .error e =>
    if e = .notExist then ([], .fatalInputNotExist) else ([], .fatalInputStat e)
  | .ok isDir =>
    if !isDir then ([], .fatalInputNotDir)
    else
      match w.mkdirAll config.OutputFolder with
      | some e => ([.mkdirAll config.OutputFolder], .fatalOutputDir e)
      | none =>
        let pre : List Event := .mkdirAll config.OutputFolder ::
          (if config.Verbose then [.print (.scanning config.InputFolder)] else [])
        match walkDir tbl config w.visits with
        | (ev, .value none) => (pre ++ ev ++ [.print .conversionComplete], .done)
        | (ev, .value (some e)) => (pre ++ ev, .fatalWalk e)
        | (ev, .runtimePanic) => (pre ++ ev, .runtimePanic)

/-! ## `main` -/

/-- The values of the six flags after `flag.Parse()`. -/
structure Flags where
  i : GoString
  o : GoString
  r : GoString
  f : GoString
  v : Bool
  h : Bool
  deriving DecidableEq, Repr

/-- The default values of the flags. -/
def defaultFlags : Flags :=
  ⟨lit "./source", lit "./sink", lit "280,180", lit "jpg", false, false⟩

/-- Lines 56 to 76 of `main`: the resolution and the format are checked, then the
configuration is built; a failed check ends the program in `log.Fatalf`. -/
def buildConfig (tbl : Nat → Nat) (fl : Flags) : Except Exit Config :=
  match parseResolution fl.r with
  | (_, _, some e) => .error (.fatalResolution e)
  | (width, height, none) =>
    let targetFormat := ToLower tbl fl.f
    if targetFormat ≠ lit "jpg" ∧ targetFormat ≠ lit "png" then .error .fatalFormat
    else .ok ⟨fl.i, fl.o, targetFormat, width, height, fl.v, fl.h⟩

/-- Go `printHelp()`: it prints the usage text. -/
def printHelp : List Event := [.print .helpText]

/-- Go `main()` after `flag.Parse()`. -/
def main (tbl : Nat → Nat) (w : World) (fl : Flags) : List Event × Exit :=
  match buildConfig tbl fl with
  | .error e => ([.print .banner], e)
  | .ok config =>
    let pre : List Event := .print .banner ::
      (if config.Verbose then [.print (.verboseConfig config)] else [])
    if config.Help then (pre ++ printHelp, .done)
    else (pre ++ (runConversion tbl w config).1, (runConversion tbl w config).2)


/-! ## Words of the specification -/

/-- The stage of a call of `processImage`: open 0, decode 1, resize 2, create 3,
encode 4; closing a file is no stage. -/
def Step.stage : Step → Option Nat
  | .osOpen _ => some 0
  | .imageDecode _ => some 1
  | .resizeResize _ _ _ => some 2
  | .osCreate _ _ => some 3
  | .jpegEncode _ _ _ _ => some 4
  | .pngEncode _ _ _ => some 4
  | _ => none

/-- Package `resize` documents that a width or height of 0 makes `Resize`
compute that side from the aspect ratio of the source. -/
def aspectPreserving (width height : Nat) : Bool := width == 0 || height == 0

/-- The mirrored path of the specification: the output root joined with the
relative path, its extension (as `filepath.Ext` finds it) replaced by a dot and
the target format. -/
def mirroredPath (config : Config) (relPath : GoString) : GoString :=
  Join [config.OutputFolder,
    relPath.take (relPath.length - (Ext relPath).length) ++ 46 :: config.TargetFormat]

/-- A relative path as `filepath.Rel` returns it for a file below the base: its
elements are neither empty nor `.` nor `..`. -/
def IsLocal (relPath : GoString) : Prop :=
  ∀ c ∈ Split 47 relPath, c ≠ [] ∧ c ≠ [46] ∧ c ≠ [46, 46]

/-- The destination paths handed to `processImage` in a list of events. -/
def destinations : List Event → List GoString
  | [] => []
  | .processImage _ outputPath _ :: es => outputPath :: destinations es
  | _ :: es => destinations es

/-! ## A world for the examples -/

/-- The entries of `unicode.CaseRanges` that the examples use: the lower-case form of
U+0130 is `i`, that of U+212A is `k`; the examples have no other rune above
U+007F, and such runes are left in place here. -/
def exampleTable (r : Nat) : Nat :=
  if r = 0x130 then 0x69 else if r = 0x212A then 0x6B else r

/-- The answers of `filepath.Rel` in the examples, where the base is a clean path
and the target is the base or a path below it: `.` for the base itself, else
the target without the base and the slash behind it.  Any other question, which
the examples do not ask, gets an error here. -/
def exampleRel (base targ : GoString) : Except Nat GoString :=
  if targ = base then .ok [46]
  else if (base ++ [47]).isPrefixOf targ then .ok (targ.drop (base.length + 1))
  else .error 0

/-- The answer of `jpeg.Encode` in the examples: package `image/jpeg` refuses an
image with a side of 65536 or more ("image is too large to encode") before it
writes anything; any other image is written. -/
def exampleJpegEncode (img : Image) (_quality : Nat) : List UInt8 × Option Nat :=
  if img.width ≥ 65536 ∨ img.height ≥ 65536 then ([], some 1) else ([74], none)

/-- A world where every call of the operating system succeeds: files hold three
bytes and decode to a 4x3 PNG image. -/
def exampleSys : Sys where
  rel := exampleRel
  mkdirAll := fun _ => none
  openFile := fun _ => .ok [1, 2, 3]
  decode := fun _ => .ok (⟨4, 3, 7⟩, lit "png")
  resample := fun _ _ img => img.pixels
  aspectWidth := fun _ img => img.width
  aspectHeight := fun _ img => img.height
  create := fun _ => none
  jpegEncode := exampleJpegEncode
  pngEncode := fun _ => ([80], none)

/-- The configuration of the examples: `-i source -o sink -f png -r 10,10`. -/
def exampleConfig : Config :=
  ⟨lit "source", lit "sink", lit "png", 10, 10, false, false⟩

/-- A visit of a regular file at `path` in the world of the examples. -/
def exampleVisit (path : GoString) : Visit := ⟨path, ⟨.regular⟩, none, exampleSys⟩

/-- A visit of a symbolic link at `path` in the world of the examples. -/
def exampleLink (path : GoString) : Visit := ⟨path, ⟨.symlink⟩, none, exampleSys⟩

/-! ## `strconv.Atoi` accepts exactly the decimal integers of the `int` range -/

theorem le_decimalFrom (ds : GoString) (n : Nat) : n ≤ decimalFrom ds n := by
  induction ds generalizing n with
  | nil => simp [decimalFrom]
  | cons c cs ih =>
    have := ih (n * 10 + (c.toNat - 48))
    simp only [decimalFrom]
    omega

theorem decimalFrom_lt (ds : GoString) (n : Nat) (h : ∀ c ∈ ds, isDigit c = true) :
    decimalFrom ds n < (n + 1) * 10 ^ ds.length := by
  induction ds generalizing n with
  | nil => simp [decimalFrom]
  | cons c cs ih =>
    have hc : isDigit c = true := h c (List.mem_cons_self _ _)
    have := ih (n * 10 + (c.toNat - 48)) (fun x hx => h x (List.mem_cons_of_mem _ hx))
    simp only [isDigit, Bool.and_eq_true, decide_eq_true_eq] at hc
    simp only [decimalFrom, List.length_cons, pow_succ]
    have h2 : (n * 10 + (c.toNat - 48) + 1) * 10 ^ cs.length ≤ (n + 1) * (10 ^ cs.length * 10) := by
      have : n * 10 + (c.toNat - 48) + 1 ≤ (n + 1) * 10 := by omega
      calc (n * 10 + (c.toNat - 48) + 1) * 10 ^ cs.length
          ≤ ((n + 1) * 10) * 10 ^ cs.length := Nat.mul_le_mul_right _ this
        _ = (n + 1) * (10 ^ cs.length * 10) := by ring
    omega

theorem parseUintLoop_ok_iff (ds : GoString) (n v : Nat) (hn : n < 2 ^ 64) :
    parseUintLoop n ds = (v, none) ↔
      (∀ c ∈ ds, isDigit c = true) ∧ v = decimalFrom ds n ∧ decimalFrom ds n < 2 ^ 64 := by
  induction ds generalizing n with
  | nil =>
    simp only [parseUintLoop, decimalFrom, Prod.mk.injEq, and_true, List.not_mem_nil,
      false_implies, implies_true, true_and]
    constructor
    · intro h; exact ⟨h.symm, hn⟩
    · intro h; exact h.1.symm
  | cons c cs ih =>
    simp only [parseUintLoop, decimalFrom, List.mem_cons, forall_eq_or_imp]
    by_cases hc : isDigit c = true
    · have hc2 := hc
      simp only [isDigit, Bool.and_eq_true, decide_eq_true_eq] at hc2
      have hmono := le_decimalFrom cs (n * 10 + (c.toNat - 48))
      simp only [hc, if_true, true_and, maxUint64, intSize]
      by_cases hcut : n ≥ (2 ^ 64 - 1) / 10 + 1
      · simp only [hcut, if_true]
        constructor
        · intro h; simp at h
        · rintro ⟨_, _, h3⟩; exfalso; omega
      · simp only [hcut, if_false]
        have e1 : n * 10 % 2 ^ 64 = n * 10 := Nat.mod_eq_of_lt (by omega)
        rw [e1]
        by_cases hov : n * 10 + (c.toNat - 48) < 2 ^ 64
        · have e2 : (n * 10 + (c.toNat - 48)) % 2 ^ 64 = n * 10 + (c.toNat - 48) :=
            Nat.mod_eq_of_lt hov
          rw [e2]
          have : ¬ (n * 10 + (c.toNat - 48) < n * 10 ∨ n * 10 + (c.toNat - 48) > 2 ^ 64 - 1) := by
            omega
          simp only [this, if_false]
          exact ih _ hov
        · have : (n * 10 + (c.toNat - 48)) % 2 ^ 64 < n * 10 ∨
              (n * 10 + (c.toNat - 48)) % 2 ^ 64 > 2 ^ 64 - 1 := by
            left; omega
          simp only [this, if_true]
          constructor
          · intro h; simp at h
          · rintro ⟨_, _, h3⟩; exfalso; omega
    · simp [hc]

theorem parseUintLoop_range (ds : GoString) (n : Nat) :
    (parseUintLoop n ds).2 = some .ErrRange → (parseUintLoop n ds).1 = 2 ^ 64 - 1 := by
  induction ds generalizing n with
  | nil => simp [parseUintLoop]
  | cons c cs ih =>
    simp only [parseUintLoop]
    split
    · split
      · simp [intSize]
      · split
        · simp [intSize]
        · exact ih _
    · simp


theorem wrapInt64_of_inRange (z : Int) (h : InIntRange z) : wrapInt64 z = z := by
  unfold InIntRange at h
  unfold wrapInt64
  norm_num at h ⊢
  omega

theorem wrapInt64_two_pow : wrapInt64 (-(wrapInt64 ((2 ^ 63 : Nat) : Int))) = -(2 ^ 63 : Int) := by
  unfold wrapInt64
  norm_num

theorem isDigit_43 : isDigit 43 = false := by decide
theorem isDigit_45 : isDigit 45 = false := by decide

theorem not_isDecimalInt_nil (v : Int) : ¬ IsDecimalInt [] v := by
  rintro ⟨ds, hne, _, h, _⟩
  rcases h with ⟨h, _⟩ | ⟨h, _⟩ | ⟨h, _⟩
  · exact hne h.symm
  · cases h
  · cases h

theorem isDecimalInt_cons (c : UInt8) (cs : GoString) (v : Int) :
    IsDecimalInt (c :: cs) v ↔ InIntRange v ∧
      ((c = 45 ∧ cs ≠ [] ∧ (∀ x ∈ cs, isDigit x = true) ∧ v = -(decimalValue cs : Int)) ∨
       (c = 43 ∧ cs ≠ [] ∧ (∀ x ∈ cs, isDigit x = true) ∧ v = (decimalValue cs : Int)) ∨
       (isDigit c = true ∧ (∀ x ∈ cs, isDigit x = true) ∧ v = (decimalValue (c :: cs) : Int))) := by
  constructor
  · rintro ⟨ds, hne, hd, h, hr⟩
    refine ⟨hr, ?_⟩
    rcases h with ⟨h, hv⟩ | ⟨h, hv⟩ | ⟨h, hv⟩
    · subst h
      right; right
      exact ⟨hd c (List.mem_cons_self _ _), fun x hx => hd x (List.mem_cons_of_mem _ hx), hv⟩
    · injection h with h1 h2
      subst h1; subst h2
      right; left
      exact ⟨rfl, hne, hd, hv⟩
    · injection h with h1 h2
      subst h1; subst h2
      left
      exact ⟨rfl, hne, hd, hv⟩
  · rintro ⟨hr, h | h | h⟩
    · obtain ⟨h1, h2, h3, h4⟩ := h
      subst h1
      exact ⟨cs, h2, h3, Or.inr (Or.inr ⟨rfl, h4⟩), hr⟩
    · obtain ⟨h1, h2, h3, h4⟩ := h
      subst h1
      exact ⟨cs, h2, h3, Or.inr (Or.inl ⟨rfl, h4⟩), hr⟩
    · obtain ⟨h1, h2, h3⟩ := h
      refine ⟨c :: cs, List.cons_ne_nil _ _, ?_, Or.inl ⟨rfl, h3⟩, hr⟩
      intro x hx
      rcases List.mem_cons.1 hx with h | h
      · subst h; exact h1
      · exact h2 x h

theorem ParseUint_ok_iff (s : GoString) (v : Nat) :
    ParseUint s = (v, none) ↔
      s ≠ [] ∧ (∀ c ∈ s, isDigit c = true) ∧ v = decimalValue s ∧ decimalValue s < 2 ^ 64 := by
  unfold ParseUint decimalValue
  by_cases h : s = []
  · simp [h]
  · simp only [h, if_false, ne_eq, not_false_eq_true, true_and]
    exact parseUintLoop_ok_iff s 0 v (by norm_num)

theorem ParseUint_range (s : GoString) :
    (ParseUint s).2 = some .ErrRange → (ParseUint s).1 = 2 ^ 64 - 1 := by
  unfold ParseUint
  by_cases h : s = []
  · simp [h]
  · simp only [h, if_false]
    exact parseUintLoop_range s 0

theorem inIntRange_iff (v : Int) : InIntRange v ↔ -9223372036854775808 ≤ v ∧ v ≤ 9223372036854775807 := by
  unfold InIntRange; norm_num

theorem parseInt_cons_eq (c : UInt8) (cs : GoString) (un : Nat) (e : Option NumError)
    (h : ParseUint (if c = 43 ∨ c = 45 then cs else c :: cs) = (un, e))
    (he : e ≠ some .ErrSyntax) :
    ParseInt (c :: cs) =
      if !decide (c = 45) && decide (un ≥ 2 ^ 63) then (wrapInt64 ((2 ^ 63 - 1 : Nat) : Int), some .ErrRange)
      else if decide (c = 45) && decide (un > 2 ^ 63) then
        (wrapInt64 (-(wrapInt64 ((2 ^ 63 : Nat) : Int))), some .ErrRange)
      else (if decide (c = 45) = true then wrapInt64 (-(wrapInt64 un)) else wrapInt64 un, none) := by
  unfold ParseInt
  simp only [h, intSize]

theorem parseInt_cons_badSyntax (c : UInt8) (cs : GoString) (un : Nat)
    (h : ParseUint (if c = 43 ∨ c = 45 then cs else c :: cs) = (un, some .ErrSyntax)) :
    ParseInt (c :: cs) = (0, some .ErrSyntax) := by
  unfold ParseInt
  simp only [h]

theorem wrapInt64_natCast (un : Nat) (h : un < 2 ^ 63) : wrapInt64 (un : Int) = un := by
  unfold wrapInt64
  norm_num at h ⊢
  omega

theorem wrapInt64_neg_wrap (un : Nat) (h : un ≤ 2 ^ 63) :
    wrapInt64 (-(wrapInt64 (un : Int))) = -(un : Int) := by
  unfold wrapInt64
  norm_num at h ⊢
  omega

theorem parseInt_cons_iff (c : UInt8) (cs : GoString) (v : Int) :
    ParseInt (c :: cs) = (v, none) ↔
      ∃ un : Nat, ParseUint (if c = 43 ∨ c = 45 then cs else c :: cs) = (un, none) ∧
        ((c = 45 ∧ un ≤ 2 ^ 63 ∧ v = -(un : Int)) ∨ (c ≠ 45 ∧ un < 2 ^ 63 ∧ v = (un : Int))) := by
  rcases hr : ParseUint (if c = 43 ∨ c = 45 then cs else c :: cs) with ⟨un, e⟩
  rcases e with _ | e
  · rw [parseInt_cons_eq c cs un none hr (by simp)]
    constructor
    · intro h
      refine ⟨un, rfl, ?_⟩
      by_cases h45 : c = 45
      · left
        simp only [h45, decide_True, Bool.not_true, Bool.false_and, Bool.false_eq_true, if_false,
          Bool.true_and, decide_eq_true_eq, if_true] at h
        split_ifs at h with hgt
        · simp at h
        · rw [wrapInt64_neg_wrap un (by omega)] at h
          simp only [Prod.mk.injEq, and_true] at h
          exact ⟨h45, by omega, h.symm⟩
      · right
        simp only [h45, decide_False, Bool.not_false, Bool.true_and, decide_eq_true_eq,
          Bool.false_and, Bool.false_eq_true, if_false] at h
        split_ifs at h with hge
        · simp at h
        · rw [wrapInt64_natCast un (by omega)] at h
          simp only [Prod.mk.injEq, and_true] at h
          exact ⟨h45, by omega, h.symm⟩
    · rintro ⟨un2, h1, h2⟩
      simp only [Prod.mk.injEq, and_true] at h1
      subst h1
      rcases h2 with ⟨h45, hle, hv⟩ | ⟨h45, hlt, hv⟩
      · have hgt : ¬ un > 2 ^ 63 := by omega
        simp only [h45, decide_True, Bool.not_true, Bool.false_and, Bool.false_eq_true, if_false,
          Bool.true_and, decide_eq_true_eq, if_true, hgt]
        rw [wrapInt64_neg_wrap un hle, hv]
      · have hge : ¬ un ≥ 2 ^ 63 := by omega
        simp only [h45, decide_False, Bool.not_false, Bool.true_and, decide_eq_true_eq,
          Bool.false_and, Bool.false_eq_true, if_false, hge]
        rw [wrapInt64_natCast un hlt, hv]
  · have hfalse : ¬ ∃ un2 : Nat, (un, some e) = (un2, (none : Option NumError)) ∧
        ((c = 45 ∧ un2 ≤ 2 ^ 63 ∧ v = -(un2 : Int)) ∨ (c ≠ 45 ∧ un2 < 2 ^ 63 ∧ v = (un2 : Int))) := by
      rintro ⟨un2, h1, _⟩
      simp at h1
    refine ⟨fun h => ?_, fun h => absurd h hfalse⟩
    exfalso
    cases e with
    | ErrSyntax =>
      rw [parseInt_cons_badSyntax c cs un hr] at h
      simp at h
    | ErrRange =>
      have hmax := ParseUint_range (if c = 43 ∨ c = 45 then cs else c :: cs)
      rw [hr] at hmax
      have hun : un = 2 ^ 64 - 1 := hmax rfl
      rw [parseInt_cons_eq c cs un _ hr (by simp)] at h
      have h1 : 9223372036854775808 ≤ un := by rw [hun]; norm_num
      have h2 : 9223372036854775808 < un := by rw [hun]; norm_num
      by_cases h45 : c = 45
      · simp [h45, h2] at h
      · simp [h45, h1] at h

theorem ParseInt_ok_iff (s : GoString) (v : Int) :
    ParseInt s = (v, none) ↔ IsDecimalInt s v := by
  cases s with
  | nil =>
    constructor
    · intro h; simp [ParseInt] at h
    · intro h; exact absurd h (not_isDecimalInt_nil v)
  | cons c cs =>
    rw [isDecimalInt_cons, inIntRange_iff, parseInt_cons_iff]
    by_cases h45 : c = 45
    · subst h45
      have hrest : (if (45 : UInt8) = 43 ∨ (45 : UInt8) = 45 then cs else 45 :: cs) = cs := by simp
      rw [hrest]
      constructor
      · rintro ⟨un, h1, h2⟩
        rw [ParseUint_ok_iff] at h1
        obtain ⟨hne, hd, hv, _⟩ := h1
        rcases h2 with ⟨_, hle, hv2⟩ | ⟨h, _⟩
        · refine ⟨by norm_num at hle; omega, Or.inl ⟨rfl, hne, hd, by rw [hv2, hv]⟩⟩
        · exact absurd rfl h
      · rintro ⟨hr, h | h | h⟩
        · obtain ⟨_, hne, hd, hv⟩ := h
          refine ⟨decimalValue cs, (ParseUint_ok_iff _ _).2 ⟨hne, hd, rfl, by omega⟩,
            Or.inl ⟨rfl, by norm_num; omega, hv⟩⟩
        · exact absurd h.1 (by decide)
        · rw [isDigit_45] at h; exact absurd h.1 (by decide)
    · by_cases h43 : c = 43
      · subst h43
        have hrest : (if (43 : UInt8) = 43 ∨ (43 : UInt8) = 45 then cs else 43 :: cs) = cs := by
          simp
        rw [hrest]
        constructor
        · rintro ⟨un, h1, h2⟩
          rw [ParseUint_ok_iff] at h1
          obtain ⟨hne, hd, hv, _⟩ := h1
          rcases h2 with ⟨h, _⟩ | ⟨_, hlt, hv2⟩
          · exact absurd h (by decide)
          · refine ⟨by norm_num at hlt; omega, Or.inr (Or.inl ⟨rfl, hne, hd, by rw [hv2, hv]⟩)⟩
        · rintro ⟨hr, h | h | h⟩
          · exact absurd h.1 (by decide)
          · obtain ⟨_, hne, hd, hv⟩ := h
            refine ⟨decimalValue cs, (ParseUint_ok_iff _ _).2 ⟨hne, hd, rfl, by omega⟩,
              Or.inr ⟨by decide, by norm_num; omega, hv⟩⟩
          · rw [isDigit_43] at h; exact absurd h.1 (by decide)
      · have hrest : (if c = 43 ∨ c = 45 then cs else c :: cs) = c :: cs := by simp [h43, h45]
        rw [hrest]
        constructor
        · rintro ⟨un, h1, h2⟩
          rw [ParseUint_ok_iff] at h1
          obtain ⟨_, hd, hv, _⟩ := h1
          rcases h2 with ⟨h, _⟩ | ⟨_, hlt, hv2⟩
          · exact absurd h h45
          · refine ⟨by norm_num at hlt; omega, Or.inr (Or.inr
              ⟨hd c (List.mem_cons_self _ _), fun x hx => hd x (List.mem_cons_of_mem _ hx),
                by rw [hv2, hv]⟩)⟩
        · rintro ⟨hr, h | h | h⟩
          · exact absurd h.1 h45
          · exact absurd h.1 h43
          · obtain ⟨hc, hd, hv⟩ := h
            refine ⟨decimalValue (c :: cs), (ParseUint_ok_iff _ _).2
              ⟨List.cons_ne_nil _ _, ?_, rfl, by omega⟩, Or.inr ⟨h45, by norm_num; omega, hv⟩⟩
            intro x hx
            rcases List.mem_cons.1 hx with h | h
            · subst h; exact hc
            · exact hd x h

theorem atoiFastLoop_iff (ds : GoString) (n : Nat) (m : Int)
    (hb : (n + 1) * 10 ^ ds.length ≤ 2 ^ 63) :
    atoiFastLoop (n : Int) ds = some m ↔
      (∀ c ∈ ds, isDigit c = true) ∧ m = (decimalFrom ds n : Int) := by
  induction ds generalizing n with
  | nil =>
    simp only [atoiFastLoop, decimalFrom, Option.some.injEq, List.not_mem_nil, false_implies,
      implies_true, true_and]
    exact eq_comm
  | cons c cs ih =>
    simp only [atoiFastLoop, decimalFrom, List.mem_cons, forall_eq_or_imp]
    by_cases hc : isDigit c = true
    · have hc2 := hc
      simp only [isDigit, Bool.and_eq_true, decide_eq_true_eq] at hc2
      simp only [hc, if_true, true_and]
      simp only [List.length_cons, pow_succ] at hb
      have hpos : 0 < 10 ^ cs.length := Nat.pow_pos (by norm_num)
      have hb2 : (n * 10 + (c.toNat - 48) + 1) * 10 ^ cs.length ≤ 2 ^ 63 := by
        have : n * 10 + (c.toNat - 48) + 1 ≤ (n + 1) * 10 := by omega
        calc (n * 10 + (c.toNat - 48) + 1) * 10 ^ cs.length
            ≤ ((n + 1) * 10) * 10 ^ cs.length := Nat.mul_le_mul_right _ this
          _ = (n + 1) * (10 ^ cs.length * 10) := by ring
          _ ≤ 2 ^ 63 := hb
      have hsmall : n * 10 + (c.toNat - 48) < 2 ^ 63 := by
        have : (n * 10 + (c.toNat - 48) + 1) * 1 ≤ (n * 10 + (c.toNat - 48) + 1) * 10 ^ cs.length :=
          Nat.mul_le_mul_left _ hpos
        omega
      have hw : wrapInt64 ((n : Int) * 10 + ((c.toNat - 48 : Nat) : Int)) =
          ((n * 10 + (c.toNat - 48) : Nat) : Int) := by
        have := wrapInt64_natCast (n * 10 + (c.toNat - 48)) hsmall
        rw [← this]
        push_cast
        rfl
      rw [hw]
      exact ih _ hb2
    · simp [hc]

theorem decimalValue_lt (ds : GoString) (h : ∀ c ∈ ds, isDigit c = true) (hl : ds.length ≤ 18) :
    decimalValue ds < 10 ^ 18 := by
  have h1 := decimalFrom_lt ds 0 h
  have h2 : 10 ^ ds.length ≤ 10 ^ 18 := Nat.pow_le_pow_right (by norm_num) hl
  unfold decimalValue
  omega

theorem atoiFast_iff (ds : GoString) (m : Int) (hl : ds.length ≤ 18) :
    atoiFastLoop 0 ds = some m ↔ (∀ c ∈ ds, isDigit c = true) ∧ m = (decimalValue ds : Int) := by
  have h2 : 10 ^ ds.length ≤ 10 ^ 18 := Nat.pow_le_pow_right (by norm_num) hl
  have := atoiFastLoop_iff ds 0 m (by norm_num at h2 ⊢; omega)
  simpa [decimalValue] using this

theorem inIntRange_of_small (n : Nat) (h : n < 10 ^ 18) :
    InIntRange (n : Int) ∧ InIntRange (-(n : Int)) := by
  rw [inIntRange_iff, inIntRange_iff]
  norm_num at h
  omega

/-- `Atoi` succeeds with value `v` exactly on the decimal integers of the `int` range. -/
theorem Atoi_ok_iff (s : GoString) (v : Int) : Atoi s = (v, none) ↔ IsDecimalInt s v := by
  unfold Atoi
  by_cases hlen : 0 < s.length ∧ s.length < 19
  · rw [if_pos hlen]
    cases s with
    | nil => simp at hlen
    | cons c cs =>
      have hl : cs.length ≤ 17 := by
        have := hlen.2
        simp only [List.length_cons] at this
        omega
      rw [isDecimalInt_cons]
      by_cases hsign : c = 45 ∨ c = 43
      · have hnd : isDigit c = false := by
          rcases hsign with h | h <;> subst h <;> decide
        simp only [hsign, if_true]
        by_cases hcs : cs = []
        · subst hcs
          simp only [List.length_nil, Nat.lt_one_iff, if_true, Prod.mk.injEq, and_false,
            reduceCtorEq, false_iff, ne_eq, not_true_eq_false, false_and, and_false, false_or, hnd,
            Bool.false_eq_true, or_self, not_false_eq_true]
        · have hlen1 : ¬ cs.length < 1 := by
            have := List.length_pos.2 hcs
            omega
          simp only [hlen1, if_false]
          cases hfl : atoiFastLoop 0 cs with
          | none =>
            simp only [Prod.mk.injEq, and_false, reduceCtorEq, false_iff, hnd, Bool.false_eq_true,
              false_and, or_false]
            rintro ⟨_, h | h⟩
            · have := (atoiFast_iff cs _ (by omega)).2 ⟨h.2.2.1, rfl⟩
              rw [hfl] at this; cases this
            · have := (atoiFast_iff cs _ (by omega)).2 ⟨h.2.2.1, rfl⟩
              rw [hfl] at this; cases this
          | some n =>
            obtain ⟨hd, hn⟩ := (atoiFast_iff cs n (by omega)).1 hfl
            have hsmall := decimalValue_lt cs hd (by omega)
            have hr := inIntRange_of_small _ hsmall
            subst hn
            simp only [Prod.mk.injEq, and_true, hnd, Bool.false_eq_true, false_and, or_false]
            by_cases h45 : c = 45
            · subst h45
              simp only [if_true, wrapInt64_of_inRange _ hr.2]
              constructor
              · intro h; subst h; exact ⟨hr.2, Or.inl ⟨trivial, hcs, hd, rfl⟩⟩
              · rintro ⟨_, h | h⟩
                · exact h.2.2.2.symm
                · exact absurd h.1 (by decide)
            · have h43 : c = 43 := by
                rcases hsign with h | h
                · exact absurd h h45
                · exact h
              subst h43
              simp only [h45, if_false]
              constructor
              · intro h; subst h; exact ⟨hr.1, Or.inr ⟨trivial, hcs, hd, rfl⟩⟩
              · rintro ⟨_, h | h⟩
                · exact absurd h.1 (by decide)
                · exact h.2.2.2.symm
      · have h45 : c ≠ 45 := fun h => hsign (Or.inl h)
        have h43 : c ≠ 43 := fun h => hsign (Or.inr h)
        have hlen1 : ¬ (c :: cs).length < 1 := by simp
        simp only [hsign, if_false, hlen1, h45, h43, false_and, false_or]
        cases hfl : atoiFastLoop 0 (c :: cs) with
        | none =>
          simp only [Prod.mk.injEq, and_false, reduceCtorEq, false_iff]
          rintro ⟨_, h⟩
          have hd : ∀ x ∈ c :: cs, isDigit x = true := by
            intro x hx
            rcases List.mem_cons.1 hx with h' | h'
            · subst h'; exact h.1
            · exact h.2.1 x h'
          have := (atoiFast_iff (c :: cs) _ (by simp only [List.length_cons]; omega)).2 ⟨hd, rfl⟩
          rw [hfl] at this; cases this
        | some n =>
          obtain ⟨hd, hn⟩ := (atoiFast_iff (c :: cs) n (by simp only [List.length_cons]; omega)).1 hfl
          have hsmall := decimalValue_lt (c :: cs) hd (by simp only [List.length_cons]; omega)
          have hr := inIntRange_of_small _ hsmall
          subst hn
          simp only [Prod.mk.injEq, and_true]
          constructor
          · intro h; subst h
            exact ⟨hr.1, hd c (List.mem_cons_self _ _),
              fun x hx => hd x (List.mem_cons_of_mem _ hx), rfl⟩
          · rintro ⟨_, h⟩
            exact h.2.2.symm
  · rw [if_neg hlen]
    exact ParseInt_ok_iff s v

theorem Atoi_err_iff (s : GoString) : (Atoi s).2 ≠ none ↔ ¬ ∃ v, IsDecimalInt s v := by
  constructor
  · rintro h ⟨v, hv⟩
    rw [← Atoi_ok_iff] at hv
    rw [hv] at h
    exact h rfl
  · intro h hn
    apply h
    refine ⟨(Atoi s).1, (Atoi_ok_iff s _).1 ?_⟩
    rw [← hn]

theorem Split_ne_nil (sep : UInt8) (s : GoString) : Split sep s ≠ [] := by
  cases s with
  | nil => simp [Split]
  | cons c cs =>
    simp only [Split]
    split
    · simp
    · split <;> simp

theorem Split_cons_sep (sep : UInt8) (cs : GoString) :
    Split sep (sep :: cs) = [] :: Split sep cs := by
  simp [Split]

theorem Split_cons_ne (sep c : UInt8) (cs : GoString) (h : c ≠ sep) :
    Split sep (c :: cs) = (c :: (Split sep cs).headD []) :: (Split sep cs).tail := by
  simp only [Split, h, if_false]
  cases hs : Split sep cs with
  | nil => exact absurd hs (Split_ne_nil sep cs)
  | cons f fs => simp

theorem Split_of_not_mem (sep : UInt8) (s : GoString) (h : sep ∉ s) : Split sep s = [s] := by
  induction s with
  | nil => simp [Split]
  | cons c cs ih =>
    have hc : c ≠ sep := fun e => h (by simp [e])
    have hcs : sep ∉ cs := fun e => h (List.mem_cons_of_mem _ e)
    rw [Split_cons_ne sep c cs hc, ih hcs]
    simp

theorem Split_append_sep (sep : UInt8) (a b : GoString) (h : sep ∉ a) :
    Split sep (a ++ sep :: b) = a :: Split sep b := by
  induction a with
  | nil => simp [Split]
  | cons c cs ih =>
    have hc : c ≠ sep := fun e => h (by simp [e])
    have hcs : sep ∉ cs := fun e => h (List.mem_cons_of_mem _ e)
    rw [List.cons_append, Split_cons_ne sep c _ hc, ih hcs]
    simp

theorem headD_cons_tail (sep : UInt8) (s : GoString) :
    (Split sep s).headD [] :: (Split sep s).tail = Split sep s := by
  cases hs : Split sep s with
  | nil => exact absurd hs (Split_ne_nil sep s)
  | cons f fs => simp

theorem Split_eq_single_iff (sep : UInt8) (s b : GoString) :
    Split sep s = [b] ↔ s = b ∧ sep ∉ b := by
  constructor
  · intro h
    induction s generalizing b with
    | nil =>
      simp only [Split, List.cons.injEq, and_true] at h
      subst h
      simp
    | cons c cs ih =>
      by_cases hc : c = sep
      · subst hc
        rw [Split_cons_sep] at h
        injection h with h1 h2
        exact absurd h2 (Split_ne_nil c cs)
      · rw [Split_cons_ne sep c cs hc] at h
        injection h with h1 h2
        have h3 : Split sep cs = [(Split sep cs).headD []] := by
          rw [← headD_cons_tail sep cs, h2]
          simp
        obtain ⟨e1, e2⟩ := ih _ h3
        subst h1
        rw [← e1]
        refine ⟨rfl, ?_⟩
        intro hm
        rcases List.mem_cons.1 hm with h | h
        · exact hc h.symm
        · rw [e1] at h; exact e2 h
  · rintro ⟨rfl, hb⟩
    exact Split_of_not_mem sep s hb

/-- Two fields come out of `Split` exactly for a string with one separator. -/
theorem Split_eq_pair_iff (sep : UInt8) (s a b : GoString) :
    Split sep s = [a, b] ↔ s = a ++ sep :: b ∧ sep ∉ a ∧ sep ∉ b := by
  constructor
  · intro h
    induction s generalizing a with
    | nil => simp [Split] at h
    | cons c cs ih =>
      by_cases hc : c = sep
      · subst hc
        rw [Split_cons_sep] at h
        injection h with h1 h2
        subst h1
        obtain ⟨e1, e2⟩ := (Split_eq_single_iff c cs b).1 h2
        subst e1
        exact ⟨rfl, by simp, e2⟩
      · rw [Split_cons_ne sep c cs hc] at h
        injection h with h1 h2
        have h3 : Split sep cs = [(Split sep cs).headD [], b] := by
          rw [← headD_cons_tail sep cs, h2]
          simp
        obtain ⟨e1, e2, e3⟩ := ih _ h3
        subst h1
        refine ⟨?_, ?_, e3⟩
        · rw [List.cons_append, ← e1]
        · intro hm
          rcases List.mem_cons.1 hm with h | h
          · exact hc h.symm
          · exact e2 h
  · rintro ⟨rfl, ha, hb⟩
    rw [Split_append_sep sep a b ha, Split_of_not_mem sep b hb]

theorem uintOfInt_of_pos (w : Int) (h0 : 0 < w) (hr : InIntRange w) :
    uintOfInt w = w.toNat ∧ ((uintOfInt w : Nat) : Int) = w ∧ 0 < uintOfInt w := by
  rw [inIntRange_iff] at hr
  have e : w % 2 ^ 64 = w := Int.emod_eq_of_lt (by omega) (by norm_num; omega)
  unfold uintOfInt
  rw [e]
  refine ⟨rfl, ?_, ?_⟩
  · omega
  · omega

theorem IsDecimalInt.inRange (s : GoString) (v : Int) (h : IsDecimalInt s v) : InIntRange v := by
  obtain ⟨_, _, _, _, hr⟩ := h
  exact hr

theorem parseResolution_invalidWidth (s a b : GoString) (e : NumError)
    (hs : Split 44 s = [a, b]) (hw : (Atoi a).2 = some e) :
    parseResolution s = (0, 0, some (.invalidWidth e)) := by
  unfold parseResolution
  simp only [hs, List.length_cons, List.length_nil, ne_eq, not_true_eq_false, if_false,
    List.getD_cons_zero, Nat.reduceAdd]
  rcases hA : Atoi a with ⟨w, ew⟩
  rw [hA] at hw
  simp only at hw
  subst hw
  rfl

theorem parseResolution_invalidHeight (s a b : GoString) (e : NumError)
    (hs : Split 44 s = [a, b]) (hw : (Atoi a).2 = none) (hh : (Atoi b).2 = some e) :
    parseResolution s = (0, 0, some (.invalidHeight e)) := by
  unfold parseResolution
  simp only [hs, List.length_cons, List.length_nil, ne_eq, not_true_eq_false, if_false,
    List.getD_cons_zero, List.getD_cons_succ, Nat.reduceAdd]
  rcases hA : Atoi a with ⟨w, ew⟩
  rcases hB : Atoi b with ⟨h, eh⟩
  rw [hA] at hw
  rw [hB] at hh
  simp only at hw hh
  subst hw; subst hh
  rfl

theorem parseResolution_numbers (s a b : GoString) (w h : Int)
    (hs : Split 44 s = [a, b]) (hw : Atoi a = (w, none)) (hh : Atoi b = (h, none)) :
    parseResolution s =
      if w ≤ 0 ∨ h ≤ 0 then (0, 0, some .nonPositive) else (uintOfInt w, uintOfInt h, none) := by
  unfold parseResolution
  simp only [hs, List.length_cons, List.length_nil, ne_eq, not_true_eq_false, if_false,
    List.getD_cons_zero, List.getD_cons_succ, hw, hh, Nat.reduceAdd]

theorem parseResolution_of_not_pair (s : GoString) (hs : (Split 44 s).length ≠ 2) :
    parseResolution s = (0, 0, some .invalidFormat) := by
  unfold parseResolution
  simp only [hs, ne_eq, not_false_eq_true, if_true]

theorem atoi_eta (s : GoString) : Atoi s = ((Atoi s).1, (Atoi s).2) := rfl

theorem length_eq_two_iff (l : List GoString) : l.length = 2 ↔ ∃ a b, l = [a, b] := by
  constructor
  · intro h
    match l, h with
    | [a, b], _ => exact ⟨a, b, rfl⟩
  · rintro ⟨a, b, rfl⟩; rfl

theorem isDecimalInt_unique (s : GoString) (v w : Int) (hv : IsDecimalInt s v)
    (hw : IsDecimalInt s w) : v = w := by
  rw [← Atoi_ok_iff] at hv hw
  rw [hv] at hw
  injection hw

/-- C1. `parseResolution(s)` succeeds exactly when `strings.Split(s, ",")` has two fields,
both are decimal integers of the `int` range (optional sign, digits only) and both are
positive; and then the returned width and height are exactly those two integers, positive,
unchanged by the conversion to `uint`. -/
theorem C1_parseResolution_success (s : GoString) :
    ((parseResolution s).2.2 = none ↔
      ∃ (a b : GoString) (w h : Int), Split 44 s = [a, b] ∧ IsDecimalInt a w ∧
        IsDecimalInt b h ∧ 0 < w ∧ 0 < h) ∧
    (∀ (a b : GoString) (w h : Int), Split 44 s = [a, b] → IsDecimalInt a w →
      IsDecimalInt b h → 0 < w → 0 < h →
      ∃ W H : Nat, parseResolution s = (W, H, none) ∧ (W : Int) = w ∧ (H : Int) = h ∧
        0 < W ∧ 0 < H) := by
  have key : ∀ (a b : GoString) (w h : Int), Split 44 s = [a, b] → IsDecimalInt a w →
      IsDecimalInt b h → 0 < w → 0 < h →
      ∃ W H : Nat, parseResolution s = (W, H, none) ∧ (W : Int) = w ∧ (H : Int) = h ∧
        0 < W ∧ 0 < H := by
    intro a b w h hs ha hb hw hh
    have e := parseResolution_numbers s a b w h hs ((Atoi_ok_iff a w).2 ha)
      ((Atoi_ok_iff b h).2 hb)
    have hn : ¬ (w ≤ 0 ∨ h ≤ 0) := by omega
    simp only [hn, if_false] at e
    obtain ⟨_, w2, w3⟩ := uintOfInt_of_pos w hw (ha.inRange)
    obtain ⟨_, h2, h3⟩ := uintOfInt_of_pos h hh (hb.inRange)
    exact ⟨uintOfInt w, uintOfInt h, e, w2, h2, w3, h3⟩
  refine ⟨⟨fun hok => ?_, ?_⟩, key⟩
  · by_cases hl : (Split 44 s).length = 2
    · obtain ⟨a, b, hs⟩ := (length_eq_two_iff _).1 hl
      cases hwe : (Atoi a).2 with
      | some e1 =>
        rw [parseResolution_invalidWidth s a b e1 hs hwe] at hok
        simp at hok
      | none =>
        cases hhe : (Atoi b).2 with
        | some e2 =>
          rw [parseResolution_invalidHeight s a b e2 hs hwe hhe] at hok
          simp at hok
        | none =>
          have hA : Atoi a = ((Atoi a).1, none) := by rw [← hwe]
          have hB : Atoi b = ((Atoi b).1, none) := by rw [← hhe]
          rw [parseResolution_numbers s a b _ _ hs hA hB] at hok
          split_ifs at hok with hpos
          exact ⟨a, b, (Atoi a).1, (Atoi b).1, hs, (Atoi_ok_iff _ _).1 hA,
            (Atoi_ok_iff _ _).1 hB, by omega, by omega⟩
    · rw [parseResolution_of_not_pair s hl] at hok
      simp at hok
  · rintro ⟨a, b, w, h, hs, ha, hb, hw, hh⟩
    obtain ⟨W, H, e, _⟩ := key a b w h hs ha hb hw hh
    rw [e]

/-- C1 at the default resolution: the two fields of "280,180" are the decimal integers 280
and 180, and the parser returns exactly (280, 180). -/
theorem C1_parseResolution_success_witness :
    Split 44 (lit "280,180") = [lit "280", lit "180"] ∧
      parseResolution (lit "280,180") = (280, 180, none) := by
  have h280 : IsDecimalInt (lit "280") 280 :=
    ⟨lit "280", by decide, by decide, Or.inl ⟨rfl, by decide⟩, by unfold InIntRange; norm_num⟩
  have h180 : IsDecimalInt (lit "180") 180 :=
    ⟨lit "180", by decide, by decide, Or.inl ⟨rfl, by decide⟩, by unfold InIntRange; norm_num⟩
  obtain ⟨W, H, e, hW, hH, _, _⟩ :=
    (C1_parseResolution_success (lit "280,180")).2 (lit "280") (lit "180") 280 180
      (by decide) h280 h180 (by norm_num) (by norm_num)
  have eW : W = 280 := by exact_mod_cast hW
  have eH : H = 180 := by exact_mod_cast hH
  subst eW; subst eH
  exact ⟨by decide, e⟩

theorem parseResolution_cases (s a b : GoString) (hs : Split 44 s = [a, b]) :
    (∃ e, (Atoi a).2 = some e ∧ parseResolution s = (0, 0, some (.invalidWidth e))) ∨
    (∃ w e, Atoi a = (w, none) ∧ (Atoi b).2 = some e ∧
      parseResolution s = (0, 0, some (.invalidHeight e))) ∨
    (∃ w h, Atoi a = (w, none) ∧ Atoi b = (h, none) ∧ (w ≤ 0 ∨ h ≤ 0) ∧
      parseResolution s = (0, 0, some .nonPositive)) ∨
    (∃ w h, Atoi a = (w, none) ∧ Atoi b = (h, none) ∧ ¬ (w ≤ 0 ∨ h ≤ 0) ∧
      parseResolution s = (uintOfInt w, uintOfInt h, none)) := by
  cases hwe : (Atoi a).2 with
  | some e1 => exact Or.inl ⟨e1, rfl, parseResolution_invalidWidth s a b e1 hs hwe⟩
  | none =>
    have hA : Atoi a = ((Atoi a).1, none) := by rw [← hwe]
    cases hhe : (Atoi b).2 with
    | some e2 =>
      exact Or.inr (Or.inl ⟨_, e2, hA, rfl, parseResolution_invalidHeight s a b e2 hs hwe hhe⟩)
    | none =>
      have hB : Atoi b = ((Atoi b).1, none) := by rw [← hhe]
      have e := parseResolution_numbers s a b _ _ hs hA hB
      by_cases hpos : (Atoi a).1 ≤ 0 ∨ (Atoi b).1 ≤ 0
      · rw [if_pos hpos] at e
        exact Or.inr (Or.inr (Or.inl ⟨_, _, hA, hB, hpos, e⟩))
      · rw [if_neg hpos] at e
        exact Or.inr (Or.inr (Or.inr ⟨_, _, hA, hB, hpos, e⟩))

theorem not_isDecimalInt_of_err (a : GoString) (e : NumError) (h : (Atoi a).2 = some e) :
    ¬ ∃ w, IsDecimalInt a w := by
  rw [← Atoi_err_iff, h]
  simp

/-- C2. `parseResolution(s)` returns the error "invalid format, expected W,H" exactly when
`strings.Split(s, ",")` does not have two fields; with two fields it returns "invalid width"
or "invalid height" exactly when one of them is not a decimal integer of the `int` range;
with two such integers it returns "width and height must be positive" exactly when one is
at most 0; every failure returns the dimensions (0, 0); and the five inputs of the
specification fail. -/
theorem C2_parseResolution_errors :
    (∀ s : GoString,
      ((parseResolution s).2.2 = some .invalidFormat ↔ (Split 44 s).length ≠ 2) ∧
      (∀ a b : GoString, Split 44 s = [a, b] →
        ((∃ e, (parseResolution s).2.2 = some (.invalidWidth e) ∨
              (parseResolution s).2.2 = some (.invalidHeight e)) ↔
            (¬ ∃ w, IsDecimalInt a w) ∨ (¬ ∃ h, IsDecimalInt b h)) ∧
        ((∃ e, (parseResolution s).2.2 = some (.invalidWidth e)) ↔ ¬ ∃ w, IsDecimalInt a w) ∧
        (∀ w h : Int, IsDecimalInt a w → IsDecimalInt b h →
          ((parseResolution s).2.2 = some .nonPositive ↔ w ≤ 0 ∨ h ≤ 0))) ∧
      ((parseResolution s).2.2 ≠ none →
        (parseResolution s).1 = 0 ∧ (parseResolution s).2.1 = 0)) ∧
    parseResolution (lit "0,100") = (0, 0, some .nonPositive) ∧
    parseResolution (lit "100,-5") = (0, 0, some .nonPositive) ∧
    parseResolution (lit "abc,100") = (0, 0, some (.invalidWidth .ErrSyntax)) ∧
    parseResolution (lit "100") = (0, 0, some .invalidFormat) ∧
    parseResolution (lit "100,100,50") = (0, 0, some .invalidFormat) := by
  refine ⟨fun s => ⟨⟨fun h hl => ?_, fun hl => ?_⟩, fun a b hs => ⟨⟨?_, ?_⟩, ⟨?_, ?_⟩, ?_⟩, ?_⟩,
    by decide, by decide, by decide, by decide, by decide⟩
  · obtain ⟨a, b, hs⟩ := (length_eq_two_iff _).1 hl
    rcases parseResolution_cases s a b hs with ⟨e, _, h1⟩ | ⟨w, e, _, _, h1⟩ |
      ⟨w, h', _, _, _, h1⟩ | ⟨w, h', _, _, _, h1⟩ <;> rw [h1] at h <;> simp at h
  · rw [parseResolution_of_not_pair s hl]
  · rintro ⟨e, h | h⟩
    · rcases parseResolution_cases s a b hs with ⟨e', he, h1⟩ | ⟨w, e', _, _, h1⟩ |
        ⟨w, h', _, _, _, h1⟩ | ⟨w, h', _, _, _, h1⟩ <;> rw [h1] at h <;> simp at h
      exact Or.inl (not_isDecimalInt_of_err a e' he)
    · rcases parseResolution_cases s a b hs with ⟨e', _, h1⟩ | ⟨w, e', _, he, h1⟩ |
        ⟨w, h', _, _, _, h1⟩ | ⟨w, h', _, _, _, h1⟩ <;> rw [h1] at h <;> simp at h
      exact Or.inr (not_isDecimalInt_of_err b e' he)
  · intro hn
    rcases parseResolution_cases s a b hs with ⟨e', _, h1⟩ | ⟨w, e', _, _, h1⟩ |
      ⟨w, h', hA, hB, _, h1⟩ | ⟨w, h', hA, hB, _, h1⟩
    · exact ⟨e', Or.inl (by rw [h1])⟩
    · exact ⟨e', Or.inr (by rw [h1])⟩
    · rcases hn with hn | hn
      · exact absurd ⟨w, (Atoi_ok_iff a w).1 hA⟩ hn
      · exact absurd ⟨h', (Atoi_ok_iff b h').1 hB⟩ hn
    · rcases hn with hn | hn
      · exact absurd ⟨w, (Atoi_ok_iff a w).1 hA⟩ hn
      · exact absurd ⟨h', (Atoi_ok_iff b h').1 hB⟩ hn
  · rintro ⟨e, h⟩
    rcases parseResolution_cases s a b hs with ⟨e', he, h1⟩ | ⟨w, e', _, _, h1⟩ |
      ⟨w, h', _, _, _, h1⟩ | ⟨w, h', _, _, _, h1⟩ <;> rw [h1] at h <;> simp at h
    exact not_isDecimalInt_of_err a e' he
  · intro hn
    rcases parseResolution_cases s a b hs with ⟨e', _, h1⟩ | ⟨w, e', hA, _, h1⟩ |
      ⟨w, h', hA, hB, _, h1⟩ | ⟨w, h', hA, hB, _, h1⟩
    · exact ⟨e', by rw [h1]⟩
    · exact absurd ⟨w, (Atoi_ok_iff a w).1 hA⟩ hn
    · exact absurd ⟨w, (Atoi_ok_iff a w).1 hA⟩ hn
    · exact absurd ⟨w, (Atoi_ok_iff a w).1 hA⟩ hn
  · intro w h ha hb
    have hA := (Atoi_ok_iff a w).2 ha
    have hB := (Atoi_ok_iff b h).2 hb
    rw [parseResolution_numbers s a b w h hs hA hB]
    by_cases hpos : w ≤ 0 ∨ h ≤ 0
    · simp [hpos]
    · simp [hpos]
  · intro hne
    by_cases hl : (Split 44 s).length = 2
    · obtain ⟨a, b, hs⟩ := (length_eq_two_iff _).1 hl
      rcases parseResolution_cases s a b hs with ⟨e', _, h1⟩ | ⟨w, e', _, _, h1⟩ |
        ⟨w, h', _, _, _, h1⟩ | ⟨w, h', _, _, _, h1⟩
      · rw [h1]; exact ⟨rfl, rfl⟩
      · rw [h1]; exact ⟨rfl, rfl⟩
      · rw [h1]; exact ⟨rfl, rfl⟩
      · rw [h1] at hne; exact absurd rfl hne
    · rw [parseResolution_of_not_pair s hl]; exact ⟨rfl, rfl⟩

/-! ## The image processor -/

theorem buildConfig_ok (tbl : Nat → Nat) (fl : Flags) (config : Config) (h : buildConfig tbl fl = .ok config) :
    (parseResolution fl.r).2.2 = none ∧
      (ToLower tbl fl.f = lit "jpg" ∨ ToLower tbl fl.f = lit "png") ∧
      config = ⟨fl.i, fl.o, ToLower tbl fl.f, (parseResolution fl.r).1, (parseResolution fl.r).2.1,
        fl.v, fl.h⟩ := by
  unfold buildConfig at h
  rcases hp : parseResolution fl.r with ⟨w, hh, e⟩
  rw [hp] at h
  cases e with
  | some e => simp at h
  | none =>
    simp only at h
    split_ifs at h with hf
    simp only [Except.ok.injEq] at h
    have hf2 : ToLower tbl fl.f = lit "jpg" ∨ ToLower tbl fl.f = lit "png" := by
      by_contra hc
      exact hf ⟨fun e => hc (Or.inl e), fun e => hc (Or.inr e)⟩
    exact ⟨rfl, hf2, h.symm⟩

theorem parseResolution_ok_pos (s : GoString) (h : (parseResolution s).2.2 = none) :
    0 < (parseResolution s).1 ∧ 0 < (parseResolution s).2.1 := by
  by_cases hl : (Split 44 s).length = 2
  · obtain ⟨a, b, hs⟩ := (length_eq_two_iff _).1 hl
    rcases parseResolution_cases s a b hs with ⟨e, _, h1⟩ | ⟨w, e, _, _, h1⟩ |
      ⟨w, h', _, _, _, h1⟩ | ⟨w, h', hA, hB, hpos, h1⟩
    · rw [h1] at h; simp at h
    · rw [h1] at h; simp at h
    · rw [h1] at h; simp at h
    · rw [h1]
      have ha := (Atoi_ok_iff a w).1 hA
      have hb := (Atoi_ok_iff b h').1 hB
      exact ⟨(uintOfInt_of_pos w (by omega) ha.inRange).2.2,
        (uintOfInt_of_pos h' (by omega) hb.inRange).2.2⟩
  · rw [parseResolution_of_not_pair s hl] at h
    simp at h

theorem buildConfig_dims (tbl : Nat → Nat) (fl : Flags) (config : Config) (h : buildConfig tbl fl = .ok config) :
    0 < config.TargetWidth ∧ 0 < config.TargetHeight := by
  obtain ⟨hres, _, hc⟩ := buildConfig_ok tbl fl config h
  rw [hc]
  exact parseResolution_ok_pos fl.r hres

theorem buildConfig_format (tbl : Nat → Nat) (fl : Flags) (config : Config) (h : buildConfig tbl fl = .ok config) :
    config.TargetFormat = lit "jpg" ∨ config.TargetFormat = lit "png" := by
  obtain ⟨_, hf, hc⟩ := buildConfig_ok tbl fl config h
  rw [hc]
  exact hf

theorem defaultFlags_config :
    buildConfig exampleTable defaultFlags = .ok ⟨lit "./source", lit "./sink", lit "jpg", 280, 180, false, false⟩ := by
  decide

/-- The five outcomes of `processImage`, by the first call that fails. -/
theorem processImage_cases (sys : Sys) (inputPath outputPath : GoString) (config : Config) :
    (∃ e, sys.openFile inputPath = .error e ∧
      processImage sys inputPath outputPath config =
        ([.osOpen inputPath], some (.openError e))) ∨
    (∃ file format e, sys.openFile inputPath = .ok file ∧ sys.decode file = .error (format, e) ∧
      processImage sys inputPath outputPath config =
        ([.osOpen inputPath, .imageDecode file, .closeFile inputPath],
          some (.decodeError format e))) ∨
    (∃ file img format e, sys.openFile inputPath = .ok file ∧
      sys.decode file = .ok (img, format) ∧ sys.create outputPath = some e ∧
      processImage sys inputPath outputPath config =
        ([.osOpen inputPath, .imageDecode file,
          .resizeResize config.TargetWidth config.TargetHeight img,
          .osCreate outputPath (some e), .closeFile inputPath], some (.createError e))) ∨
    (∃ file img format, sys.openFile inputPath = .ok file ∧
      sys.decode file = .ok (img, format) ∧ sys.create outputPath = none ∧
      config.TargetFormat = lit "jpg" ∧
      processImage sys inputPath outputPath config =
        ([.osOpen inputPath, .imageDecode file,
          .resizeResize config.TargetWidth config.TargetHeight img,
          .osCreate outputPath none,
          .jpegEncode outputPath (Resize sys config.TargetWidth config.TargetHeight img) 90
            (sys.jpegEncode (Resize sys config.TargetWidth config.TargetHeight img) 90).1,
          .closeOutFile outputPath, .closeFile inputPath],
          (sys.jpegEncode (Resize sys config.TargetWidth config.TargetHeight img) 90).2.map
            .encodeError)) ∨
    (∃ file img format, sys.openFile inputPath = .ok file ∧
      sys.decode file = .ok (img, format) ∧ sys.create outputPath = none ∧
      config.TargetFormat ≠ lit "jpg" ∧ config.TargetFormat = lit "png" ∧
      processImage sys inputPath outputPath config =
        ([.osOpen inputPath, .imageDecode file,
          .resizeResize config.TargetWidth config.TargetHeight img,
          .osCreate outputPath none,
          .pngEncode outputPath (Resize sys config.TargetWidth config.TargetHeight img)
            (sys.pngEncode (Resize sys config.TargetWidth config.TargetHeight img)).1,
          .closeOutFile outputPath, .closeFile inputPath],
          (sys.pngEncode (Resize sys config.TargetWidth config.TargetHeight img)).2.map
            .encodeError)) ∨
    (∃ file img format, sys.openFile inputPath = .ok file ∧
      sys.decode file = .ok (img, format) ∧ sys.create outputPath = none ∧
      config.TargetFormat ≠ lit "jpg" ∧ config.TargetFormat ≠ lit "png" ∧
      processImage sys inputPath outputPath config =
        ([.osOpen inputPath, .imageDecode file,
          .resizeResize config.TargetWidth config.TargetHeight img,
          .osCreate outputPath none, .closeOutFile outputPath, .closeFile inputPath],
          some (.unknownFormat config.TargetFormat))) := by
  cases ho : sys.openFile inputPath with
  | error e => exact Or.inl ⟨e, rfl, by simp only [processImage, ho]⟩
  | ok file =>
    right
    cases hd : sys.decode file with
    | error fe =>
      obtain ⟨format, e⟩ := fe
      exact Or.inl ⟨file, format, e, rfl, hd, by simp only [processImage, ho, hd]⟩
    | ok r =>
      obtain ⟨img, format⟩ := r
      right
      cases hc : sys.create outputPath with
      | some e =>
        refine Or.inl ⟨file, img, format, e, rfl, hd, rfl, ?_⟩
        simp only [processImage, ho, hd, hc, List.cons_append, List.nil_append]
      | none =>
        right
        by_cases hj : config.TargetFormat = lit "jpg"
        · refine Or.inl ⟨file, img, format, rfl, hd, rfl, hj, ?_⟩
          simp only [processImage, ho, hd, hc, hj, if_true, List.cons_append, List.nil_append]
        · right
          by_cases hp : config.TargetFormat = lit "png"
          · refine Or.inl ⟨file, img, format, rfl, hd, rfl, hj, hp, ?_⟩
            simp only [processImage, ho, hd, hc, List.cons_append, List.nil_append]
            rw [if_neg hj, if_pos hp]
          · refine Or.inr ⟨file, img, format, rfl, hd, rfl, hj, hp, ?_⟩
            simp only [processImage, ho, hd, hc, hj, hp, if_false, List.cons_append,
              List.nil_append]

/-- C9. `processImage` returns the error "unknown target format" exactly when open, decode and
create succeed and `TargetFormat` is neither "jpg" nor "png"; for a configuration that
passed the checks of `main` it never returns it, whatever open, decode, create and encode
answer. -/
theorem C9_unknown_format_unreachable (tbl : Nat → Nat) (fl : Flags) (config : Config) (sys : Sys)
    (inputPath outputPath f : GoString) :
    ((processImage sys inputPath outputPath config).2 = some (.unknownFormat f) ↔
      f = config.TargetFormat ∧ config.TargetFormat ≠ lit "jpg" ∧
        config.TargetFormat ≠ lit "png" ∧
        ∃ file img format, sys.openFile inputPath = .ok file ∧
          sys.decode file = .ok (img, format) ∧ sys.create outputPath = none) ∧
    (buildConfig tbl fl = .ok config →
      (processImage sys inputPath outputPath config).2 ≠ some (.unknownFormat f)) := by
  have key : (processImage sys inputPath outputPath config).2 = some (.unknownFormat f) ↔
      f = config.TargetFormat ∧ config.TargetFormat ≠ lit "jpg" ∧
        config.TargetFormat ≠ lit "png" ∧
        ∃ file img format, sys.openFile inputPath = .ok file ∧
          sys.decode file = .ok (img, format) ∧ sys.create outputPath = none := by
    rcases processImage_cases sys inputPath outputPath config with
      ⟨e, ho, h⟩ | ⟨file, format, e, ho, hd, h⟩ | ⟨file, img, format, e, ho, hd, hc, h⟩ |
      ⟨file, img, format, ho, hd, hc, hj, h⟩ | ⟨file, img, format, ho, hd, hc, hj, hp, h⟩ |
      ⟨file, img, format, ho, hd, hc, hj, hp, h⟩
    · rw [h]
      constructor
      · intro h'; simp at h'
      · rintro ⟨_, _, _, file, img, format, ho', _⟩
        rw [ho] at ho'; cases ho'
    · rw [h]
      constructor
      · intro h'; simp at h'
      · rintro ⟨_, _, _, file', img, format', ho', hd', _⟩
        rw [ho] at ho'; cases ho'
        rw [hd] at hd'; cases hd'
    · rw [h]
      constructor
      · intro h'; simp at h'
      · rintro ⟨_, _, _, file', img', format', _, _, hc'⟩
        rw [hc] at hc'; cases hc'
    · rw [h]
      constructor
      · intro h'
        cases hx : (sys.jpegEncode (Resize sys config.TargetWidth config.TargetHeight img) 90).2 <;>
          rw [hx] at h' <;> simp at h'
      · rintro ⟨_, hj', _⟩
        exact absurd hj hj'
    · rw [h]
      constructor
      · intro h'
        cases hx : (sys.pngEncode (Resize sys config.TargetWidth config.TargetHeight img)).2 <;>
          rw [hx] at h' <;> simp at h'
      · rintro ⟨_, _, hp', _⟩
        exact absurd hp hp'
    · rw [h]
      constructor
      · intro h'
        simp only [Option.some.injEq, ProcError.unknownFormat.injEq] at h'
        exact ⟨h'.symm, hj, hp, file, img, format, ho, hd, hc⟩
      · rintro ⟨hf, _⟩
        rw [hf]
  refine ⟨key, fun hcfg hne => ?_⟩
  obtain ⟨_, hj, hp, _⟩ := key.1 hne
  rcases buildConfig_format tbl fl config hcfg with h | h
  · exact hj h
  · exact hp h

/-- C9 at the default flags, in the world of the examples: the configuration passes the
checks and `processImage` does not return the error for the format "jpg". -/
theorem C9_unknown_format_unreachable_witness :
    buildConfig exampleTable defaultFlags =
        .ok ⟨lit "./source", lit "./sink", lit "jpg", 280, 180, false, false⟩ ∧
      (processImage exampleSys (lit "source/a.png") (lit "sink/a.jpg")
        ⟨lit "./source", lit "./sink", lit "jpg", 280, 180, false, false⟩).2 ≠
          some (.unknownFormat (lit "jpg")) :=
  ⟨defaultFlags_config,
    (C9_unknown_format_unreachable exampleTable defaultFlags _ exampleSys (lit "source/a.png")
      (lit "sink/a.jpg") (lit "jpg")).2 defaultFlags_config⟩

/-- C10. `processImage` makes its calls in the order open, decode, resize, create, encode and
stops at the first that fails: the stages of its calls are always a beginning of
0, 1, 2, 3, 4, all five when it returns nil; when open or decode fails there is no call of
`os.Create` and the files are what they were; and a call of `os.Create` is for the
destination path, after a successful decode. -/
theorem C10_processImage_stage_order (sys : Sys) (inputPath outputPath : GoString)
    (config : Config) (fs : Files) :
    ((processImage sys inputPath outputPath config).1.filterMap Step.stage <+: [0, 1, 2, 3, 4]) ∧
    ((processImage sys inputPath outputPath config).2 = none →
      (processImage sys inputPath outputPath config).1.filterMap Step.stage = [0, 1, 2, 3, 4]) ∧
    ((∃ e, sys.openFile inputPath = .error e) →
      (processImage sys inputPath outputPath config).1.filterMap Step.stage = [0]) ∧
    ((∃ file fe, sys.openFile inputPath = .ok file ∧ sys.decode file = .error fe) →
      (processImage sys inputPath outputPath config).1.filterMap Step.stage = [0, 1]) ∧
    ((∃ file r e, sys.openFile inputPath = .ok file ∧ sys.decode file = .ok r ∧
        sys.create outputPath = some e) →
      (processImage sys inputPath outputPath config).1.filterMap Step.stage = [0, 1, 2, 3]) ∧
    (((∃ e, sys.openFile inputPath = .error e) ∨
        (∃ file fe, sys.openFile inputPath = .ok file ∧ sys.decode file = .error fe)) →
      (∀ p e, Step.osCreate p e ∉ (processImage sys inputPath outputPath config).1) ∧
        filesAfter fs (processImage sys inputPath outputPath config).1 = fs) ∧
    (∀ p e, Step.osCreate p e ∈ (processImage sys inputPath outputPath config).1 →
      p = outputPath ∧ e = sys.create outputPath ∧
        ∃ file img format, sys.openFile inputPath = .ok file ∧
          sys.decode file = .ok (img, format)) := by
  rcases processImage_cases sys inputPath outputPath config with
    ⟨e, ho, h⟩ | ⟨file, format, e, ho, hd, h⟩ | ⟨file, img, format, e, ho, hd, hc, h⟩ |
    ⟨file, img, format, ho, hd, hc, hj, h⟩ | ⟨file, img, format, ho, hd, hc, hj, hp, h⟩ |
    ⟨file, img, format, ho, hd, hc, hj, hp, h⟩
  · rw [h]
    refine ⟨⟨[1, 2, 3, 4], rfl⟩, fun h' => by simp at h', fun _ => rfl, ?_, ?_, ?_, ?_⟩
    · rintro ⟨file, fe, ho', _⟩
      rw [ho] at ho'; cases ho'
    · rintro ⟨file, r, e', ho', _⟩
      rw [ho] at ho'; cases ho'
    · intro _
      exact ⟨fun p e' hm => by simp at hm, rfl⟩
    · intro p e' hm
      simp at hm
  · rw [h]
    refine ⟨⟨[2, 3, 4], rfl⟩, fun h' => by simp at h', ?_, fun _ => rfl, ?_, ?_, ?_⟩
    · rintro ⟨e', ho'⟩
      rw [ho] at ho'; cases ho'
    · rintro ⟨file', r, e', ho', hd', _⟩
      rw [ho] at ho'; cases ho'
      rw [hd] at hd'; cases hd'
    · intro _
      exact ⟨fun p e' hm => by simp at hm, rfl⟩
    · intro p e' hm
      simp at hm
  · rw [h]
    refine ⟨⟨[4], rfl⟩, fun h' => by simp at h', ?_, ?_, fun _ => rfl, ?_, ?_⟩
    · rintro ⟨e', ho'⟩
      rw [ho] at ho'; cases ho'
    · rintro ⟨file', fe, ho', hd'⟩
      rw [ho] at ho'; cases ho'
      rw [hd] at hd'; cases hd'
    · rintro (⟨e', ho'⟩ | ⟨file', fe, ho', hd'⟩)
      · rw [ho] at ho'; cases ho'
      · rw [ho] at ho'; cases ho'
        rw [hd] at hd'; cases hd'
    · intro p e' hm
      simp only [List.mem_cons, Step.osCreate.injEq, reduceCtorEq, List.mem_singleton,
        List.not_mem_nil, or_false, false_or] at hm
      exact ⟨hm.1, by rw [hm.2, hc], file, img, format, ho, hd⟩
  · rw [h]
    refine ⟨⟨[], rfl⟩, fun _ => rfl, ?_, ?_, ?_, ?_, ?_⟩
    · rintro ⟨e', ho'⟩
      rw [ho] at ho'; cases ho'
    · rintro ⟨file', fe, ho', hd'⟩
      rw [ho] at ho'; cases ho'
      rw [hd] at hd'; cases hd'
    · rintro ⟨file', r, e', _, _, hc'⟩
      rw [hc] at hc'; cases hc'
    · rintro (⟨e', ho'⟩ | ⟨file', fe, ho', hd'⟩)
      · rw [ho] at ho'; cases ho'
      · rw [ho] at ho'; cases ho'
        rw [hd] at hd'; cases hd'
    · intro p e' hm
      simp only [List.mem_cons, Step.osCreate.injEq, reduceCtorEq, List.mem_singleton,
        List.not_mem_nil, or_false, false_or] at hm
      exact ⟨hm.1, by rw [hm.2, hc], file, img, format, ho, hd⟩
  · rw [h]
    refine ⟨⟨[], rfl⟩, fun _ => rfl, ?_, ?_, ?_, ?_, ?_⟩
    · rintro ⟨e', ho'⟩
      rw [ho] at ho'; cases ho'
    · rintro ⟨file', fe, ho', hd'⟩
      rw [ho] at ho'; cases ho'
      rw [hd] at hd'; cases hd'
    · rintro ⟨file', r, e', _, _, hc'⟩
      rw [hc] at hc'; cases hc'
    · rintro (⟨e', ho'⟩ | ⟨file', fe, ho', hd'⟩)
      · rw [ho] at ho'; cases ho'
      · rw [ho] at ho'; cases ho'
        rw [hd] at hd'; cases hd'
    · intro p e' hm
      simp only [List.mem_cons, Step.osCreate.injEq, reduceCtorEq, List.mem_singleton,
        List.not_mem_nil, or_false, false_or] at hm
      exact ⟨hm.1, by rw [hm.2, hc], file, img, format, ho, hd⟩
  · rw [h]
    refine ⟨⟨[4], rfl⟩, fun h' => by simp at h', ?_, ?_, ?_, ?_, ?_⟩
    · rintro ⟨e', ho'⟩
      rw [ho] at ho'; cases ho'
    · rintro ⟨file', fe, ho', hd'⟩
      rw [ho] at ho'; cases ho'
      rw [hd] at hd'; cases hd'
    · rintro ⟨file', r, e', _, _, hc'⟩
      rw [hc] at hc'; cases hc'
    · rintro (⟨e', ho'⟩ | ⟨file', fe, ho', hd'⟩)
      · rw [ho] at ho'; cases ho'
      · rw [ho] at ho'; cases ho'
        rw [hd] at hd'; cases hd'
    · intro p e' hm
      simp only [List.mem_cons, Step.osCreate.injEq, reduceCtorEq, List.mem_singleton,
        List.not_mem_nil, or_false, false_or] at hm
      exact ⟨hm.1, by rw [hm.2, hc], file, img, format, ho, hd⟩

/-- C10 for a source that does not decode, a destination file that exists already, and
every other call ready to succeed: the calls are open, decode, close, and the destination
still holds its bytes. -/
theorem C10_processImage_stage_order_witness :
    (processImage { exampleSys with decode := fun _ => .error (lit "png", 1) }
        (lit "source/a.png") (lit "sink/a.png") exampleConfig).1 =
      [.osOpen (lit "source/a.png"), .imageDecode [1, 2, 3], .closeFile (lit "source/a.png")] ∧
    filesAfter (fun p => if p = lit "sink/a.png" then some [9, 9] else none)
      (processImage { exampleSys with decode := fun _ => .error (lit "png", 1) }
        (lit "source/a.png") (lit "sink/a.png") exampleConfig).1 (lit "sink/a.png") =
      some [9, 9] := by
  have h := (C10_processImage_stage_order
    { exampleSys with decode := fun _ => .error (lit "png", 1) }
    (lit "source/a.png") (lit "sink/a.png") exampleConfig
    (fun p => if p = lit "sink/a.png" then some [9, 9] else none)).2.2.2.2.2.1
    (Or.inr ⟨[1, 2, 3], (lit "png", 1), rfl, rfl⟩)
  refine ⟨by decide, ?_⟩
  rw [h.2]
  decide

theorem Resize_bounds (sys : Sys) (width height : Nat) (img : Image)
    (hw : width ≠ 0) (hh : height ≠ 0) :
    (Resize sys width height img).width = width ∧
      (Resize sys width height img).height = height := by
  unfold Resize
  simp only [hw, hh, if_false, and_self]

theorem filesAfter_jpeg (fs : Files) (inputPath outputPath : GoString) (file : List UInt8)
    (w h : Nat) (img i : Image) (q : Nat) (written : List UInt8) :
    filesAfter fs [.osOpen inputPath, .imageDecode file, .resizeResize w h img,
      .osCreate outputPath none, .jpegEncode outputPath i q written,
      .closeOutFile outputPath, .closeFile inputPath] outputPath = some written := by
  simp [filesAfter, Step.apply]

theorem filesAfter_png (fs : Files) (inputPath outputPath : GoString) (file : List UInt8)
    (w h : Nat) (img i : Image) (written : List UInt8) :
    filesAfter fs [.osOpen inputPath, .imageDecode file, .resizeResize w h img,
      .osCreate outputPath none, .pngEncode outputPath i written,
      .closeOutFile outputPath, .closeFile inputPath] outputPath = some written := by
  simp [filesAfter, Step.apply]

set_option maxRecDepth 100000 in
/-- C8, refuted as stated. The flags `-r 70000,100 -f jpg` pass the checks of `main`; the
source opens and decodes and the destination is created, but `jpeg.Encode` refuses an image
with a side of 65536 or more: `processImage` returns that error and the destination file is
empty, so there is no encoded output of 70000 by 100 pixels. -/
theorem C8_counterexample :
    buildConfig exampleTable { defaultFlags with r := lit "70000,100" } =
      .ok ⟨lit "./source", lit "./sink", lit "jpg", 70000, 100, false, false⟩ ∧
    exampleSys.openFile (lit "source/a.png") = .ok [1, 2, 3] ∧
    exampleSys.decode [1, 2, 3] = .ok (⟨4, 3, 7⟩, lit "png") ∧
    (processImage exampleSys (lit "source/a.png") (lit "sink/a.jpg")
      ⟨lit "./source", lit "./sink", lit "jpg", 70000, 100, false, false⟩).2 =
        some (.encodeError 1) ∧
    filesAfter (fun _ => none)
      (processImage exampleSys (lit "source/a.png") (lit "sink/a.jpg")
        ⟨lit "./source", lit "./sink", lit "jpg", 70000, 100, false, false⟩).1
      (lit "sink/a.jpg") = some [] := by
  refine ⟨by decide, rfl, rfl, by decide, ?_⟩
  have h : (processImage exampleSys (lit "source/a.png") (lit "sink/a.jpg")
      ⟨lit "./source", lit "./sink", lit "jpg", 70000, 100, false, false⟩).1 =
      [.osOpen (lit "source/a.png"), .imageDecode [1, 2, 3],
        .resizeResize 70000 100 ⟨4, 3, 7⟩, .osCreate (lit "sink/a.jpg") none,
        .jpegEncode (lit "sink/a.jpg") ⟨70000, 100, 7⟩ 90 [],
        .closeOutFile (lit "sink/a.jpg"), .closeFile (lit "source/a.png")] := by
    decide
  rw [h]
  exact filesAfter_jpeg _ _ _ _ _ _ _ _ _ _

/-- C8, amended. For a configuration that passed the checks of `main` and a source that opens
and decodes, `processImage` calls `resize.Resize` once, with exactly `TargetWidth` and
`TargetHeight` and the decoded image; both are non-zero, so the call is never in the
aspect-preserving mode and the resized image is exactly `TargetWidth` by `TargetHeight`,
whatever the size of the source; an encoder is only ever handed that image; and whenever
`processImage` returns nil, the destination file holds exactly the bytes that the encoder of
the target format wrote for that image, without error. -/
theorem C8_resize_exact (tbl : Nat → Nat) (fl : Flags) (config : Config) (sys : Sys)
    (inputPath outputPath : GoString) (file : List UInt8) (img : Image) (format : GoString)
    (fs : Files)
    (hcfg : buildConfig tbl fl = .ok config)
    (hopen : sys.openFile inputPath = .ok file)
    (hdec : sys.decode file = .ok (img, format)) :
    config.TargetWidth ≠ 0 ∧ config.TargetHeight ≠ 0 ∧
    aspectPreserving config.TargetWidth config.TargetHeight = false ∧
    (∀ w h i, Step.resizeResize w h i ∈ (processImage sys inputPath outputPath config).1 ↔
      w = config.TargetWidth ∧ h = config.TargetHeight ∧ i = img) ∧
    (Resize sys config.TargetWidth config.TargetHeight img).width = config.TargetWidth ∧
    (Resize sys config.TargetWidth config.TargetHeight img).height = config.TargetHeight ∧
    (∀ p i q wr, Step.jpegEncode p i q wr ∈ (processImage sys inputPath outputPath config).1 →
      p = outputPath ∧ i = Resize sys config.TargetWidth config.TargetHeight img ∧ q = 90) ∧
    (∀ p i wr, Step.pngEncode p i wr ∈ (processImage sys inputPath outputPath config).1 →
      p = outputPath ∧ i = Resize sys config.TargetWidth config.TargetHeight img) ∧
    ((processImage sys inputPath outputPath config).2 = none →
      (config.TargetFormat = lit "jpg" ∧
        (sys.jpegEncode (Resize sys config.TargetWidth config.TargetHeight img) 90).2 = none ∧
        filesAfter fs (processImage sys inputPath outputPath config).1 outputPath =
          some (sys.jpegEncode (Resize sys config.TargetWidth config.TargetHeight img) 90).1) ∨
      (config.TargetFormat = lit "png" ∧
        (sys.pngEncode (Resize sys config.TargetWidth config.TargetHeight img)).2 = none ∧
        filesAfter fs (processImage sys inputPath outputPath config).1 outputPath =
          some (sys.pngEncode (Resize sys config.TargetWidth config.TargetHeight img)).1)) := by
  obtain ⟨hw, hh⟩ := buildConfig_dims tbl fl config hcfg
  have hw0 : config.TargetWidth ≠ 0 := by omega
  have hh0 : config.TargetHeight ≠ 0 := by omega
  have hdim := Resize_bounds sys config.TargetWidth config.TargetHeight img hw0 hh0
  refine ⟨hw0, hh0, by simp [aspectPreserving, hw0, hh0], ?_⟩
  rcases processImage_cases sys inputPath outputPath config with
    ⟨e, ho, h⟩ | ⟨file', format', e, ho, hd, h⟩ | ⟨file', img', format', e, ho, hd, hc, h⟩ |
    ⟨file', img', format', ho, hd, hc, hj, h⟩ | ⟨file', img', format', ho, hd, hc, hj, hp, h⟩ |
    ⟨file', img', format', ho, hd, hc, hj, hp, h⟩
  · rw [hopen] at ho; cases ho
  · rw [hopen] at ho; cases ho
    rw [hdec] at hd; cases hd
  · rw [hopen] at ho; cases ho
    rw [hdec] at hd; cases hd
    rw [h]
    refine ⟨?_, hdim.1, hdim.2, ?_, ?_, ?_⟩
    · intro w h' i
      simp [eq_comm]
    · intro p i q wr hm; simp at hm
    · intro p i wr hm; simp at hm
    · intro hn; simp at hn
  · rw [hopen] at ho; cases ho
    rw [hdec] at hd; cases hd
    rw [h]
    refine ⟨?_, hdim.1, hdim.2, ?_, ?_, ?_⟩
    · intro w h' i
      simp [eq_comm]
    · intro p i q wr hm
      simp only [List.mem_cons, Step.jpegEncode.injEq, reduceCtorEq, List.mem_singleton,
        List.not_mem_nil, or_false, false_or] at hm
      exact ⟨hm.1, hm.2.1, hm.2.2.1⟩
    · intro p i wr hm; simp at hm
    · intro hn
      left
      refine ⟨hj, ?_, filesAfter_jpeg _ _ _ _ _ _ _ _ _ _⟩
      cases hx : (sys.jpegEncode (Resize sys config.TargetWidth config.TargetHeight img) 90).2
      · rfl
      · rw [hx] at hn; simp at hn
  · rw [hopen] at ho; cases ho
    rw [hdec] at hd; cases hd
    rw [h]
    refine ⟨?_, hdim.1, hdim.2, ?_, ?_, ?_⟩
    · intro w h' i
      simp [eq_comm]
    · intro p i q wr hm; simp at hm
    · intro p i wr hm
      simp only [List.mem_cons, Step.pngEncode.injEq, reduceCtorEq, List.mem_singleton,
        List.not_mem_nil, or_false, false_or] at hm
      exact ⟨hm.1, hm.2.1⟩
    · intro hn
      right
      refine ⟨hp, ?_, filesAfter_png _ _ _ _ _ _ _ _ _⟩
      cases hx : (sys.pngEncode (Resize sys config.TargetWidth config.TargetHeight img)).2
      · rfl
      · rw [hx] at hn; simp at hn
  · exfalso
    rcases buildConfig_format tbl fl config hcfg with hf | hf
    · exact hj hf
    · exact hp hf

set_option maxRecDepth 100000 in
/-- C8 (amended) with `-r 200,100` and a source of 4 by 3 pixels in the world of the
examples: the image resized is 200 by 100, `processImage` returns nil, and the destination
holds what `jpeg.Encode` wrote for it. -/
theorem C8_resize_exact_witness :
    buildConfig exampleTable { defaultFlags with r := lit "200,100" } =
        .ok ⟨lit "./source", lit "./sink", lit "jpg", 200, 100, false, false⟩ ∧
    Resize exampleSys 200 100 ⟨4, 3, 7⟩ = ⟨200, 100, 7⟩ ∧
    (processImage exampleSys (lit "source/a.png") (lit "sink/a.jpg")
      ⟨lit "./source", lit "./sink", lit "jpg", 200, 100, false, false⟩).2 = none ∧
    filesAfter (fun _ => none)
      (processImage exampleSys (lit "source/a.png") (lit "sink/a.jpg")
        ⟨lit "./source", lit "./sink", lit "jpg", 200, 100, false, false⟩).1
      (lit "sink/a.jpg") = some (exampleJpegEncode ⟨200, 100, 7⟩ 90).1 := by
  have hnil : (processImage exampleSys (lit "source/a.png") (lit "sink/a.jpg")
      ⟨lit "./source", lit "./sink", lit "jpg", 200, 100, false, false⟩).2 = none := by
    decide
  have h := (C8_resize_exact exampleTable { defaultFlags with r := lit "200,100" }
      ⟨lit "./source", lit "./sink", lit "jpg", 200, 100, false, false⟩ exampleSys
      (lit "source/a.png") (lit "sink/a.jpg") [1, 2, 3] ⟨4, 3, 7⟩ (lit "png")
      (fun _ => none) (by decide) rfl rfl).2.2.2.2.2.2.2.2 hnil
  refine ⟨by decide, by decide, hnil, ?_⟩
  rcases h with ⟨_, _, h⟩ | ⟨hp, _⟩
  · exact h
  · exact absurd hp (by decide)

/-! ## The format check of `main` -/

theorem buildConfig_of_ok (tbl : Nat → Nat) (fl : Flags) (hres : (parseResolution fl.r).2.2 = none)
    (hf : ToLower tbl fl.f = lit "jpg" ∨ ToLower tbl fl.f = lit "png") :
    buildConfig tbl fl = .ok ⟨fl.i, fl.o, ToLower tbl fl.f, (parseResolution fl.r).1,
      (parseResolution fl.r).2.1, fl.v, fl.h⟩ := by
  unfold buildConfig
  rcases hp : parseResolution fl.r with ⟨w, hh, e⟩
  rw [hp] at hres
  simp only at hres
  subst hres
  have hn : ¬ (ToLower tbl fl.f ≠ lit "jpg" ∧ ToLower tbl fl.f ≠ lit "png") := by
    rintro ⟨h1, h2⟩
    rcases hf with h | h
    · exact h1 h
    · exact h2 h
  simp only [hn, if_false]

theorem buildConfig_of_bad_format (tbl : Nat → Nat) (fl : Flags)
    (hf : ¬ (ToLower tbl fl.f = lit "jpg" ∨ ToLower tbl fl.f = lit "png")) :
    (∃ e, buildConfig tbl fl = .error (.fatalResolution e)) ∨ buildConfig tbl fl = .error .fatalFormat := by
  unfold buildConfig
  rcases hp : parseResolution fl.r with ⟨w, hh, e⟩
  cases e with
  | some e => exact Or.inl ⟨e, rfl⟩
  | none =>
    right
    have hn : ToLower tbl fl.f ≠ lit "jpg" ∧ ToLower tbl fl.f ≠ lit "png" :=
      ⟨fun h => hf (Or.inl h), fun h => hf (Or.inr h)⟩
    exact if_pos hn

theorem main_of_error (tbl : Nat → Nat) (w : World) (fl : Flags) (e : Exit) (h : buildConfig tbl fl = .error e) :
    main tbl w fl = ([.print .banner], e) := by
  unfold main
  rw [h]

/-- C7. The format given on the command line is accepted exactly when its lower-cased form
is "jpg" or "png" (for a resolution that parses), and the `TargetFormat` of the
configuration is that lower-cased form; for every other format no configuration is built
and the program ends in `log.Fatalf` having printed the banner only, so no conversion
starts; "JPG" and "PNG" are stored as "jpg" and "png", "bmp" is fatal. -/
theorem C7_format_check (tbl : Nat → Nat) (w : World) (fl : Flags) :
    (∀ c, buildConfig tbl fl = .ok c →
      c.TargetFormat = ToLower tbl fl.f ∧ (ToLower tbl fl.f = lit "jpg" ∨ ToLower tbl fl.f = lit "png")) ∧
    ((parseResolution fl.r).2.2 = none →
      ((∃ c, buildConfig tbl fl = .ok c ∧ c.TargetFormat = ToLower tbl fl.f) ↔
        (ToLower tbl fl.f = lit "jpg" ∨ ToLower tbl fl.f = lit "png"))) ∧
    (¬ (ToLower tbl fl.f = lit "jpg" ∨ ToLower tbl fl.f = lit "png") →
      (∀ c, buildConfig tbl fl ≠ .ok c) ∧
      (∃ e, buildConfig tbl fl = .error e ∧ main tbl w fl = ([.print .banner], e) ∧
        (e = .fatalFormat ∨ ∃ r, e = .fatalResolution r)) ∧
      ((parseResolution fl.r).2.2 = none → main tbl w fl = ([.print .banner], .fatalFormat))) ∧
    ToLower tbl (lit "JPG") = lit "jpg" ∧ ToLower tbl (lit "PNG") = lit "png" ∧
    buildConfig tbl { defaultFlags with f := lit "JPG" } =
      .ok ⟨lit "./source", lit "./sink", lit "jpg", 280, 180, false, false⟩ ∧
    buildConfig tbl { defaultFlags with f := lit "PNG" } =
      .ok ⟨lit "./source", lit "./sink", lit "png", 280, 180, false, false⟩ ∧
    main tbl w { defaultFlags with f := lit "bmp" } = ([.print .banner], .fatalFormat) := by
  refine ⟨?_, ?_, ?_, by rfl, by rfl, by rfl, by rfl, ?_⟩
  · intro c hc
    obtain ⟨_, hf, hcfg⟩ := buildConfig_ok tbl fl c hc
    rw [hcfg]
    exact ⟨rfl, hf⟩
  · intro hres
    constructor
    · rintro ⟨c, hc, _⟩
      exact (buildConfig_ok tbl fl c hc).2.1
    · intro hf
      exact ⟨_, buildConfig_of_ok tbl fl hres hf, rfl⟩
  · intro hf
    refine ⟨?_, ?_, ?_⟩
    · intro c hc
      exact hf (buildConfig_ok tbl fl c hc).2.1
    · rcases buildConfig_of_bad_format tbl fl hf with ⟨e, he⟩ | he
      · exact ⟨_, he, main_of_error tbl w fl _ he, Or.inr ⟨e, rfl⟩⟩
      · exact ⟨_, he, main_of_error tbl w fl _ he, Or.inl rfl⟩
    · intro hres
      rcases buildConfig_of_bad_format tbl fl hf with ⟨e, he⟩ | he
      · exfalso
        unfold buildConfig at he
        rcases hp : parseResolution fl.r with ⟨w', hh, e'⟩
        rw [hp] at hres he
        simp only at hres
        subst hres
        simp only at he
        split_ifs at he
        cases he
      · exact main_of_error tbl w fl _ he
  · exact main_of_error tbl w _ _ (by rfl)

/-- C7 at `-f bmp` with the other flags at their defaults: no configuration, and `main` ends
in the fatal format error after the banner. -/
theorem C7_format_check_witness :
    (parseResolution (lit "280,180")).2.2 = none ∧
    ¬ (ToLower exampleTable (lit "bmp") = lit "jpg" ∨ ToLower exampleTable (lit "bmp") = lit "png") ∧
    main exampleTable ⟨fun _ => .ok true, fun _ => none, []⟩ { defaultFlags with f := lit "bmp" } =
      ([.print .banner], .fatalFormat) :=
  ⟨by decide, by decide,
    (C7_format_check exampleTable ⟨fun _ => .ok true, fun _ => none, []⟩
      { defaultFlags with f := lit "bmp" }).2.2.1 (by decide) |>.2.2 (by decide)⟩

/-! ## The callback of the directory walk -/

theorem walkFn_of_err (tbl : Nat → Nat) (config : Config) (v : Visit) (e : OsError) (h : v.err = some e) :
    walkFn tbl config v = ([], .value (some e)) := by
  unfold walkFn
  rw [h]

theorem walkFn_of_dir (tbl : Nat → Nat) (config : Config) (v : Visit) (h : v.err = none) (hd : v.d.IsDir = true) :
    walkFn tbl config v = ([], .value none) := by
  unfold walkFn
  rw [h]
  simp only [hd, if_true]

theorem walkFn_of_other_ext (tbl : Nat → Nat) (config : Config) (v : Visit) (h : v.err = none)
    (he : isImageExt (ToLower tbl (Ext v.path)) = false) :
    walkFn tbl config v = ([], .value none) := by
  unfold walkFn
  rw [h]
  simp only [he, Bool.false_eq_true, if_false, ite_self]

theorem walkFn_of_rel_error (tbl : Nat → Nat) (config : Config) (v : Visit) (e : Nat) (h : v.err = none)
    (hd : v.d.IsDir = false) (he : isImageExt (ToLower tbl (Ext v.path)) = true)
    (hr : v.sys.rel config.InputFolder v.path = .error e) :
    walkFn tbl config v = ([.print (.warnRelPath v.path e)], .value none) := by
  unfold walkFn
  rw [h]
  simp only [hd, Bool.false_eq_true, if_false, he, if_true, hr]

theorem walkFn_of_short_rel (tbl : Nat → Nat) (config : Config) (v : Visit) (r : GoString) (h : v.err = none)
    (hd : v.d.IsDir = false) (he : isImageExt (ToLower tbl (Ext v.path)) = true)
    (hr : v.sys.rel config.InputFolder v.path = .ok r)
    (hlen : r.length < (ToLower tbl (Ext v.path)).length) :
    walkFn tbl config v = ([], .runtimePanic) := by
  unfold walkFn
  rw [h]
  simp only [hd, Bool.false_eq_true, if_false, he, if_true, hr, hlen]

theorem walkFn_of_mkdir_error (tbl : Nat → Nat) (config : Config) (v : Visit) (r : GoString) (e : OsError)
    (h : v.err = none) (hd : v.d.IsDir = false)
    (he : isImageExt (ToLower tbl (Ext v.path)) = true)
    (hr : v.sys.rel config.InputFolder v.path = .ok r)
    (hlen : ¬ r.length < (ToLower tbl (Ext v.path)).length)
    (hm : v.sys.mkdirAll (Dir (newPathOf config r (ToLower tbl (Ext v.path)))) = some e) :
    walkFn tbl config v =
      ([.mkdirAll (Dir (newPathOf config r (ToLower tbl (Ext v.path)))),
        .print (.warnSubDir (newPathOf config r (ToLower tbl (Ext v.path))) e)], .value none) := by
  unfold walkFn
  rw [h]
  simp only [hd, Bool.false_eq_true, if_false, he, if_true, hr, hlen, hm]

theorem walkFn_of_processed (tbl : Nat → Nat) (config : Config) (v : Visit) (r : GoString)
    (h : v.err = none) (hd : v.d.IsDir = false)
    (he : isImageExt (ToLower tbl (Ext v.path)) = true)
    (hr : v.sys.rel config.InputFolder v.path = .ok r)
    (hlen : ¬ r.length < (ToLower tbl (Ext v.path)).length)
    (hm : v.sys.mkdirAll (Dir (newPathOf config r (ToLower tbl (Ext v.path)))) = none) :
    walkFn tbl config v =
      (.mkdirAll (Dir (newPathOf config r (ToLower tbl (Ext v.path)))) ::
        .processImage v.path (newPathOf config r (ToLower tbl (Ext v.path)))
          (processImage v.sys v.path (newPathOf config r (ToLower tbl (Ext v.path))) config).1 ::
        (match (processImage v.sys v.path (newPathOf config r (ToLower tbl (Ext v.path))) config).2 with
         | some e => [.print (.warnProcess v.path e)]
         | none =>
           if config.Verbose then
             [.print (.converted v.path (newPathOf config r (ToLower tbl (Ext v.path))))]
           else []),
       .value none) := by
  unfold walkFn
  rw [h]
  simp only [hd, Bool.false_eq_true, if_false, he, if_true, hr, hlen, hm, List.cons_append,
    List.nil_append]

/-- The callback returns nil for an entry that the walk reports without error, unless the
relative path is shorter than the extension. -/
theorem walkFn_returns_nil (tbl : Nat → Nat) (config : Config) (v : Visit) (h : v.err = none)
    (hslice : ∀ r, v.sys.rel config.InputFolder v.path = .ok r →
      (ToLower tbl (Ext v.path)).length ≤ r.length) :
    (walkFn tbl config v).2 = .value none := by
  by_cases hd : v.d.IsDir = true
  · rw [walkFn_of_dir tbl config v h hd]
  · have hd' : v.d.IsDir = false := by simpa using hd
    by_cases he : isImageExt (ToLower tbl (Ext v.path)) = true
    · cases hr : v.sys.rel config.InputFolder v.path with
      | error e => rw [walkFn_of_rel_error tbl config v e h hd' he hr]
      | ok r =>
        have hlen : ¬ r.length < (ToLower tbl (Ext v.path)).length := by
          have := hslice r hr
          omega
        cases hm : v.sys.mkdirAll (Dir (newPathOf config r (ToLower tbl (Ext v.path)))) with
        | some e => rw [walkFn_of_mkdir_error tbl config v r e h hd' he hr hlen hm]
        | none => rw [walkFn_of_processed tbl config v r h hd' he hr hlen hm]
    · have he' : isImageExt (ToLower tbl (Ext v.path)) = false := by simpa using he
      rw [walkFn_of_other_ext tbl config v h he']

theorem isImageExt_iff (ext : GoString) :
    isImageExt ext = true ↔
      ext = lit ".jpg" ∨ ext = lit ".jpeg" ∨ ext = lit ".png" ∨ ext = lit ".gif" := by
  simp only [isImageExt, Bool.or_eq_true, decide_eq_true_eq, or_assoc]

/-- C5, refuted as stated, on both sides of its "if and only if". The regular file
`source/sub/b.jpg` has an eligible extension, yet when `os.MkdirAll` fails for its
destination directory `sink/sub` the callback logs a warning and `processImage` is not
called. The symbolic link `source/link.png` is not a regular file, yet it is not a directory
either, and the callback hands it to `processImage`. -/
theorem C5_counterexample :
    ((exampleVisit (lit "source/sub/b.jpg")).d.IsRegular = true ∧
      isImageExt (ToLower exampleTable (Ext (lit "source/sub/b.jpg"))) = true ∧
      walkFn exampleTable exampleConfig
          { exampleVisit (lit "source/sub/b.jpg") with
            sys := { exampleSys with
              mkdirAll := fun p => if p = lit "sink/sub" then some (.other 13) else none } } =
        ([.mkdirAll (lit "sink/sub"),
          .print (.warnSubDir (lit "sink/sub/b.png") (.other 13))], .value none)) ∧
    ((exampleLink (lit "source/link.png")).d.IsRegular = false ∧
      (exampleLink (lit "source/link.png")).d.IsDir = false ∧
      destinations (walkFn exampleTable exampleConfig (exampleLink (lit "source/link.png"))).1 =
        [lit "sink/link.png"]) := by
  decide

/-- C5, amended. For an entry that the walk reports without error (the relative path not
shorter than the extension), `processImage` is called, and then with the path of the entry,
exactly when the entry is not a directory (a regular file, or a link, pipe, socket or
device), its lower-cased extension is one of .jpg, .jpeg, .png, .gif, and both
`filepath.Rel` and `os.MkdirAll` succeed for it; for an entry that is a directory or has
another extension the callback calls neither `processImage` nor `os.MkdirAll`, logs nothing
and returns nil. -/
theorem C5_eligible_entries (tbl : Nat → Nat) (config : Config) (v : Visit) (herr : v.err = none)
    (hslice : ∀ r, v.sys.rel config.InputFolder v.path = .ok r →
      (ToLower tbl (Ext v.path)).length ≤ r.length) :
    (v.d.IsDir = false ↔ v.d.fileType ≠ .dir) ∧
    ((∃ inputPath out steps, Event.processImage inputPath out steps ∈ (walkFn tbl config v).1) ↔
      v.d.IsDir = false ∧
      (ToLower tbl (Ext v.path) = lit ".jpg" ∨ ToLower tbl (Ext v.path) = lit ".jpeg" ∨
        ToLower tbl (Ext v.path) = lit ".png" ∨ ToLower tbl (Ext v.path) = lit ".gif") ∧
      ∃ r, v.sys.rel config.InputFolder v.path = .ok r ∧
        v.sys.mkdirAll (Dir (newPathOf config r (ToLower tbl (Ext v.path)))) = none) ∧
    (∀ inputPath out steps, Event.processImage inputPath out steps ∈ (walkFn tbl config v).1 →
      inputPath = v.path) ∧
    (¬ (v.d.IsDir = false ∧
        (ToLower tbl (Ext v.path) = lit ".jpg" ∨ ToLower tbl (Ext v.path) = lit ".jpeg" ∨
          ToLower tbl (Ext v.path) = lit ".png" ∨ ToLower tbl (Ext v.path) = lit ".gif")) →
      walkFn tbl config v = ([], .value none)) := by
  refine ⟨by simp [DirEntry.IsDir], ?_⟩
  by_cases hd : v.d.IsDir = true
  · rw [walkFn_of_dir tbl config v herr hd]
    refine ⟨⟨?_, ?_⟩, ?_, fun _ => rfl⟩
    · rintro ⟨_, _, _, hm⟩; simp at hm
    · rintro ⟨hd', _⟩; rw [hd] at hd'; cases hd'
    · intro _ _ _ hm; simp at hm
  · have hd' : v.d.IsDir = false := by simpa using hd
    by_cases he : isImageExt (ToLower tbl (Ext v.path)) = true
    · have he4 := (isImageExt_iff _).1 he
      cases hr : v.sys.rel config.InputFolder v.path with
      | error e =>
        rw [walkFn_of_rel_error tbl config v e herr hd' he hr]
        refine ⟨⟨?_, ?_⟩, ?_, fun hn => absurd ⟨hd', he4⟩ hn⟩
        · rintro ⟨_, _, _, hm⟩; simp at hm
        · rintro ⟨_, _, r, hr', _⟩; cases hr'
        · intro _ _ _ hm; simp at hm
      | ok r =>
        have hlen : ¬ r.length < (ToLower tbl (Ext v.path)).length := by
          have := hslice r hr
          omega
        cases hm : v.sys.mkdirAll (Dir (newPathOf config r (ToLower tbl (Ext v.path)))) with
        | some e =>
          rw [walkFn_of_mkdir_error tbl config v r e herr hd' he hr hlen hm]
          refine ⟨⟨?_, ?_⟩, ?_, fun hn => absurd ⟨hd', he4⟩ hn⟩
          · rintro ⟨_, _, _, hm'⟩; simp at hm'
          · rintro ⟨_, _, r', hr', hm'⟩
            cases hr'
            rw [hm] at hm'; cases hm'
          · intro _ _ _ hm'; simp at hm'
        | none =>
          rw [walkFn_of_processed tbl config v r herr hd' he hr hlen hm]
          refine ⟨⟨fun _ => ⟨hd', he4, r, rfl, hm⟩, fun _ => ⟨v.path,
            newPathOf config r (ToLower tbl (Ext v.path)),
            (processImage v.sys v.path (newPathOf config r (ToLower tbl (Ext v.path))) config).1,
            ?_⟩⟩, ?_, fun hn => absurd ⟨hd', he4⟩ hn⟩
          · exact List.mem_cons_of_mem _ (List.mem_cons_self _ _)
          · intro i out steps hm'
            simp only [List.mem_cons, reduceCtorEq, Event.processImage.injEq, false_or] at hm'
            rcases hm' with hm' | hm'
            · exact hm'.1
            · exfalso
              generalize (processImage v.sys v.path
                (newPathOf config r (ToLower tbl (Ext v.path))) config).2 = x at hm'
              cases x with
              | some e => simp at hm'
              | none =>
                simp only at hm'
                split_ifs at hm' <;> simp at hm'
    · have he' : isImageExt (ToLower tbl (Ext v.path)) = false := by simpa using he
      rw [walkFn_of_other_ext tbl config v herr he']
      refine ⟨⟨?_, ?_⟩, ?_, fun _ => rfl⟩
      · rintro ⟨_, _, _, hm⟩; simp at hm
      · rintro ⟨_, he4, _⟩
        exact absurd ((isImageExt_iff _).2 he4) he
      · intro _ _ _ hm; simp at hm

/-- C5 (amended) on the tree of the specification: `source/sub/b.jpg` is handed to
`processImage`, `source/readme.txt` yields no call, no log line and nil. -/
theorem C5_eligible_entries_witness :
    (∃ inputPath out steps, Event.processImage inputPath out steps ∈
      (walkFn exampleTable exampleConfig (exampleVisit (lit "source/sub/b.jpg"))).1) ∧
    walkFn exampleTable exampleConfig (exampleVisit (lit "source/readme.txt")) = ([], .value none) :=
  ⟨(C5_eligible_entries exampleTable exampleConfig (exampleVisit (lit "source/sub/b.jpg")) rfl
      (fun r hr => by
        have e : r = lit "sub/b.jpg" := by
          have h2 : (Except.ok (lit "sub/b.jpg") : Except Nat GoString) = .ok r := hr
          injection h2 with h3
          exact h3.symm
        rw [e]; decide)).2.1.2 ⟨rfl, by decide, lit "sub/b.jpg", by decide, rfl⟩,
   (C5_eligible_entries exampleTable exampleConfig (exampleVisit (lit "source/readme.txt")) rfl
      (fun r hr => by
        have e : r = lit "readme.txt" := by
          have h2 : (Except.ok (lit "readme.txt") : Except Nat GoString) = .ok r := hr
          injection h2 with h3
          exact h3.symm
        rw [e]; decide)).2.2.2 (by decide)⟩

/-- The callback hands back the error that the walk passes to it, and nothing else happens. -/
theorem walkFn_passes_error (tbl : Nat → Nat) (config : Config) (v : Visit) (e : OsError) (h : v.err = some e) :
    walkFn tbl config v = ([], .value (some e)) :=
  walkFn_of_err tbl config v e h

/-- A walk whose entries are all reported without error, none with a relative path shorter
than its extension, returns nil. -/
theorem walkDir_returns_nil (tbl : Nat → Nat) (config : Config) (vs : List Visit)
    (h : ∀ v ∈ vs, v.err = none ∧ ∀ r, v.sys.rel config.InputFolder v.path = .ok r →
      (ToLower tbl (Ext v.path)).length ≤ r.length) :
    (walkDir tbl config vs).2 = .value none := by
  induction vs with
  | nil => rfl
  | cons v vs ih =>
    have hv := h v (List.mem_cons_self _ _)
    have h2 := walkFn_returns_nil tbl config v hv.1 hv.2
    have ih' := ih (fun x hx => h x (List.mem_cons_of_mem _ hx))
    unfold walkDir
    rcases hw : walkFn tbl config v with ⟨ev, r⟩
    rw [hw] at h2
    simp only at h2
    subst h2
    exact ih'

/-- C6, the code at the failing input. The input folder is given as `pics.jpg`, a symbolic
link to a directory: `os.Stat` reports a directory, `filepath.WalkDir` calls the callback
for the link itself, without error and not as a directory, and `filepath.Rel` answers ".".
The slice `relPath[0 : len(relPath)-len(ext)]` is then out of range: the callback does not
return, and the run ends in a panic of the Go runtime. -/
theorem C6_link_root_panics :
    (exampleLink (lit "pics.jpg")).err = none ∧
    (exampleLink (lit "pics.jpg")).d.fileType = .symlink ∧
    (exampleLink (lit "pics.jpg")).d.IsDir = false ∧
    (exampleLink (lit "pics.jpg")).sys.rel (lit "pics.jpg") (lit "pics.jpg") = .ok (lit ".") ∧
    walkFn exampleTable { exampleConfig with InputFolder := lit "pics.jpg" }
        (exampleLink (lit "pics.jpg")) =
      ([], .runtimePanic) ∧
    runConversion exampleTable ⟨fun _ => .ok true, fun _ => none, [exampleLink (lit "pics.jpg")]⟩
        { exampleConfig with InputFolder := lit "pics.jpg" } =
      ([.mkdirAll (lit "sink")], .runtimePanic) := by
  decide

/-- C3, the code at the failing input. The file `source/a.gİf` is eligible, since
`strings.ToLower` turns U+0130 (two bytes) into `i` (one byte); the extension has five bytes,
its lower-cased form four, and the callback cuts four bytes off the relative path: the
destination is `sink/a..png`, where the mirrored path of the specification is `sink/a.png`.
For `source/sub/b.jpg` the destination is `sink/sub/b.png`, as specified. -/
theorem C3_shorter_lower_case_extension :
    Ext (lit "source/a.gİf") = lit ".gİf" ∧
    ToLower exampleTable (lit ".gİf") = lit ".gif" ∧
    isImageExt (ToLower exampleTable (Ext (lit "source/a.gİf"))) = true ∧
    (exampleVisit (lit "source/a.gİf")).sys.rel (lit "source") (lit "source/a.gİf") =
      .ok (lit "a.gİf") ∧
    destinations (walkFn exampleTable exampleConfig (exampleVisit (lit "source/a.gİf"))).1 =
      [lit "sink/a..png"] ∧
    mirroredPath exampleConfig (lit "a.gİf") = lit "sink/a.png" ∧
    destinations (walkFn exampleTable exampleConfig (exampleVisit (lit "source/sub/b.jpg"))).1 =
      [lit "sink/sub/b.png"] ∧
    mirroredPath exampleConfig (lit "sub/b.jpg") = lit "sink/sub/b.png" := by
  decide

/-- C4, refuted as stated: `source/a.jpg` and `source/a.png` are two distinct eligible files,
and the callback derives the destination `sink/a.png` for both. -/
theorem C4_counterexample :
    lit "source/a.jpg" ≠ lit "source/a.png" ∧
    isImageExt (ToLower exampleTable (Ext (lit "source/a.jpg"))) = true ∧
    isImageExt (ToLower exampleTable (Ext (lit "source/a.png"))) = true ∧
    destinations (walkFn exampleTable exampleConfig (exampleVisit (lit "source/a.jpg"))).1 =
      [lit "sink/a.png"] ∧
    destinations (walkFn exampleTable exampleConfig (exampleVisit (lit "source/a.png"))).1 =
      [lit "sink/a.png"] := by
  decide

/-! ## Extensions, and when the destination is the mirrored path -/

theorem extScan_suffix (rev acc : GoString) :
    ∃ pre, rev.reverse ++ acc = pre ++ extScan rev acc := by
  induction rev generalizing acc with
  | nil => exact ⟨acc, by simp [extScan]⟩
  | cons c rest ih =>
    simp only [extScan]
    by_cases h47 : c = 47
    · simp only [h47, if_true]
      exact ⟨_, (List.append_nil _).symm⟩
    · simp only [h47, if_false]
      by_cases h46 : c = 46
      · simp only [h46, if_true]
        exact ⟨rest.reverse, by simp⟩
      · simp only [h46, if_false]
        obtain ⟨pre, hpre⟩ := ih (c :: acc)
        exact ⟨pre, by rw [← hpre]; simp⟩

theorem extScan_no_slash (rev acc : GoString) (h : (47 : UInt8) ∉ acc) :
    (47 : UInt8) ∉ extScan rev acc := by
  induction rev generalizing acc with
  | nil => simp [extScan]
  | cons c rest ih =>
    simp only [extScan]
    by_cases h47 : c = 47
    · simp [h47]
    · simp only [h47, if_false]
      have hc : (47 : UInt8) ∉ c :: acc := by
        intro hm
        rcases List.mem_cons.1 hm with h' | h'
        · exact h47 h'.symm
        · exact h h'
      by_cases h46 : c = 46
      · simp only [h46, if_true]
        rw [← h46]
        exact hc
      · simp only [h46, if_false]
        exact ih _ hc

theorem extScan_stop (a b acc : GoString) :
    extScan (a ++ 47 :: b) acc = extScan a acc := by
  induction a generalizing acc with
  | nil => simp [extScan]
  | cons c rest ih =>
    simp only [List.cons_append, extScan]
    by_cases h47 : c = 47
    · simp [h47]
    · simp only [h47, if_false]
      by_cases h46 : c = 46
      · simp [h46]
      · simp only [h46, if_false]
        exact ih _

/-- The extension is a suffix of the path. -/
theorem Ext_suffix (path : GoString) :
    path.take (path.length - (Ext path).length) ++ Ext path = path := by
  obtain ⟨pre, hpre⟩ := extScan_suffix path.reverse []
  simp only [List.reverse_reverse, List.append_nil] at hpre
  unfold Ext
  have hl : path.length = pre.length + (extScan path.reverse []).length := by
    conv_lhs => rw [hpre]
    simp
  have ht : path.take (path.length - (extScan path.reverse []).length) = pre := by
    rw [hl, Nat.add_sub_cancel]
    conv_lhs => rw [hpre]
    simp
  rw [ht, ← hpre]

/-- The extension has no slash in it. -/
theorem Ext_no_slash (path : GoString) : (47 : UInt8) ∉ Ext path :=
  extScan_no_slash _ _ (by simp)

/-- The extension of a path is that of the part behind any of its slashes. -/
theorem Ext_append_slash (d r : GoString) : Ext (d ++ 47 :: r) = Ext r := by
  unfold Ext
  rw [List.reverse_append, List.reverse_cons, List.append_assoc, List.singleton_append,
    extScan_stop]

/-- Lower-casing keeps the length of a string of ASCII bytes. -/
theorem ToLower_length_of_ascii (tbl : Nat → Nat) (s : GoString) (h : s.all (fun c => decide (c.toNat < 0x80)) = true) :
    (ToLower tbl s).length = s.length := by
  unfold ToLower
  rw [if_pos h]
  split_ifs
  · rfl
  · simp

/-- For a string of ASCII bytes the case table plays no part. -/
theorem ToLower_of_ascii (tbl tbl2 : Nat → Nat) (s : GoString)
    (h : s.all (fun c => decide (c.toNat < 0x80)) = true) : ToLower tbl s = ToLower tbl2 s := by
  unfold ToLower
  rw [if_pos h, if_pos h]

/-- Where lower-casing keeps the length of the extension, the destination of the callback is
the mirrored path of the specification. -/
theorem newPathOf_eq_mirroredPath (tbl : Nat → Nat) (config : Config) (path relPath : GoString)
    (hext : Ext relPath = Ext path)
    (hlen : (ToLower tbl (Ext path)).length = (Ext path).length) :
    newPathOf config relPath (ToLower tbl (Ext path)) = mirroredPath config relPath := by
  unfold newPathOf mirroredPath
  rw [hlen, hext]

/-! ## Path elements -/

theorem Split_mem_no_sep (sep : UInt8) (s : GoString) : ∀ f ∈ Split sep s, sep ∉ f := by
  induction s with
  | nil => simp [Split]
  | cons c cs ih =>
    by_cases hc : c = sep
    · subst hc
      rw [Split_cons_sep]
      intro f hf
      rcases List.mem_cons.1 hf with h | h
      · subst h; simp
      · exact ih f h
    · rw [Split_cons_ne sep c cs hc]
      intro f hf
      rcases List.mem_cons.1 hf with h | h
      · subst h
        intro hm
        rcases List.mem_cons.1 hm with h' | h'
        · exact hc h'.symm
        · have hmem : (Split sep cs).headD [] ∈ Split sep cs := by
            cases hs : Split sep cs with
            | nil => exact absurd hs (Split_ne_nil sep cs)
            | cons x xs => simp
          exact ih _ hmem h'
      · exact ih f (List.mem_of_mem_tail h)

theorem Split_append_sep_all (sep : UInt8) (a b : GoString) :
    Split sep (a ++ sep :: b) = Split sep a ++ Split sep b := by
  induction a with
  | nil => simp [Split]
  | cons c cs ih =>
    by_cases hc : c = sep
    · subst hc
      rw [List.cons_append, Split_cons_sep, Split_cons_sep, ih]
      rfl
    · rw [List.cons_append, Split_cons_ne sep c _ hc, Split_cons_ne sep c cs hc, ih]
      cases hs : Split sep cs with
      | nil => exact absurd hs (Split_ne_nil sep cs)
      | cons x xs => simp

theorem intercalate_cons_cons (sep a b : GoString) (l : List GoString) :
    List.intercalate sep (a :: b :: l) = a ++ sep ++ List.intercalate sep (b :: l) := by
  simp [List.intercalate, List.intersperse]

theorem intercalate_singleton (sep a : GoString) : List.intercalate sep [a] = a := by
  simp [List.intercalate, List.intersperse]

theorem intercalate_cons_head (sep : GoString) (c : UInt8) (a : GoString) (l : List GoString) :
    List.intercalate sep ((c :: a) :: l) = c :: List.intercalate sep (a :: l) := by
  cases l with
  | nil => simp [intercalate_singleton]
  | cons b l => simp [intercalate_cons_cons]

theorem intercalate_Split (sep : UInt8) (s : GoString) :
    List.intercalate [sep] (Split sep s) = s := by
  induction s with
  | nil => simp [Split, intercalate_singleton]
  | cons c cs ih =>
    by_cases hc : c = sep
    · subst hc
      rw [Split_cons_sep]
      cases hs : Split c cs with
      | nil => exact absurd hs (Split_ne_nil c cs)
      | cons x xs =>
        rw [intercalate_cons_cons, ← hs, ih]
        rfl
    · rw [Split_cons_ne sep c cs hc, intercalate_cons_head, headD_cons_tail, ih]

theorem Split_intercalate (sep : UInt8) (l : List GoString) (hne : l ≠ [])
    (h : ∀ f ∈ l, sep ∉ f) : Split sep (List.intercalate [sep] l) = l := by
  induction l with
  | nil => exact absurd rfl hne
  | cons a l ih =>
    cases l with
    | nil =>
      rw [intercalate_singleton]
      exact Split_of_not_mem sep a (h a (List.mem_cons_self _ _))
    | cons b l =>
      rw [intercalate_cons_cons, List.append_assoc, List.singleton_append,
        Split_append_sep sep a _ (h a (List.mem_cons_self _ _)),
        ih (List.cons_ne_nil _ _) (fun f hf => h f (List.mem_cons_of_mem _ hf))]

theorem Split_injective (sep : UInt8) (s t : GoString) (h : Split sep s = Split sep t) :
    s = t := by
  rw [← intercalate_Split sep s, ← intercalate_Split sep t, h]

theorem Split_append_no_sep (sep : UInt8) (a e : GoString) (he : sep ∉ e) :
    Split sep (a ++ e) = (Split sep a).dropLast ++ [(Split sep a).getLastD [] ++ e] := by
  induction a with
  | nil =>
    rw [List.nil_append, Split_of_not_mem sep e he]
    simp [Split]
  | cons c cs ih =>
    by_cases hc : c = sep
    · subst hc
      rw [List.cons_append, Split_cons_sep, Split_cons_sep, ih]
      rcases hs : Split c cs with _ | ⟨x, xs⟩
      · exact absurd hs (Split_ne_nil c cs)
      · simp
    · rw [List.cons_append, Split_cons_ne sep c _ hc, Split_cons_ne sep c cs hc, ih]
      rcases hs : Split sep cs with _ | ⟨x, _ | ⟨y, ys⟩⟩
      · exact absurd hs (Split_ne_nil sep cs)
      · simp
      · simp

/-! ## `filepath.Join` keeps relative paths apart -/

theorem cleanStep_of_normal (rooted : Bool) (stack : List GoString) (c : GoString)
    (h : c ≠ [] ∧ c ≠ [46] ∧ c ≠ [46, 46]) : cleanStep rooted stack c = c :: stack := by
  unfold cleanStep
  have h1 : ¬ (c = [] ∨ c = [46]) := fun h' => h'.elim h.1 h.2.1
  rw [if_neg h1, if_neg h.2.2]

theorem foldl_cleanStep_of_normal (rooted : Bool) (cs : List GoString) (stack : List GoString)
    (h : ∀ c ∈ cs, c ≠ [] ∧ c ≠ [46] ∧ c ≠ [46, 46]) :
    cs.foldl (cleanStep rooted) stack = cs.reverse ++ stack := by
  induction cs generalizing stack with
  | nil => rfl
  | cons c cs ih =>
    rw [List.foldl_cons, cleanStep_of_normal rooted stack c (h c (List.mem_cons_self _ _)),
      ih _ (fun x hx => h x (List.mem_cons_of_mem _ hx))]
    simp

theorem cleanStep_no_slash (rooted : Bool) (stack : List GoString) (c : GoString)
    (hs : ∀ f ∈ stack, (47 : UInt8) ∉ f) (hc : (47 : UInt8) ∉ c) :
    ∀ f ∈ cleanStep rooted stack c, (47 : UInt8) ∉ f := by
  have hcons : ∀ f ∈ c :: stack, (47 : UInt8) ∉ f := by
    intro f hf
    rcases List.mem_cons.1 hf with h | h
    · rw [h]; exact hc
    · exact hs f h
  cases stack with
  | nil =>
    simp only [cleanStep]
    split_ifs <;>
      first
        | exact hs
        | exact hcons
  | cons top rest =>
    simp only [cleanStep]
    split_ifs <;>
      first
        | exact hs
        | exact hcons
        | exact fun f hf => hs f (List.mem_cons_of_mem _ hf)

theorem foldl_cleanStep_no_slash (rooted : Bool) (cs : List GoString) (stack : List GoString)
    (hs : ∀ f ∈ stack, (47 : UInt8) ∉ f) (hc : ∀ c ∈ cs, (47 : UInt8) ∉ c) :
    ∀ f ∈ cs.foldl (cleanStep rooted) stack, (47 : UInt8) ∉ f := by
  induction cs generalizing stack with
  | nil => exact hs
  | cons c cs ih =>
    rw [List.foldl_cons]
    exact ih _ (cleanStep_no_slash rooted stack c hs (hc c (List.mem_cons_self _ _)))
      (fun x hx => hc x (List.mem_cons_of_mem _ hx))

theorem IsLocal.ne_nil (x : GoString) (h : IsLocal x) : x ≠ [] := by
  intro hx
  subst hx
  exact (h [] (by simp [Split])).1 rfl

theorem IsLocal.head_ne_slash (x : GoString) (h : IsLocal x) : x.head? ≠ some 47 := by
  intro hx
  cases x with
  | nil => simp at hx
  | cons c cs =>
    simp only [List.head?_cons, Option.some.injEq] at hx
    subst hx
    exact (h [] (by rw [Split_cons_sep]; simp)).1 rfl

/-- `filepath.Join(O, x)` for a relative path `x` of plain elements: a beginning that depends
on `O` only, then the elements of `x`. -/
theorem Join_of_local (O : GoString) :
    ∃ (pre : GoString) (S : List GoString), (∀ f ∈ S, (47 : UInt8) ∉ f) ∧
      ∀ x, IsLocal x → Join [O, x] = pre ++ List.intercalate [47] (S ++ Split 47 x) := by
  by_cases hO : O = []
  · subst hO
    refine ⟨[], [], by simp, fun x hx => ?_⟩
    have hne := hx.ne_nil
    have hhead := hx.head_ne_slash
    have hj : Join [[], x] = Clean x := by
      simp [Join, hne, intercalate_singleton]
    rw [hj]
    unfold Clean
    rw [if_neg hne]
    have hr : decide (x.head? = some 47) = false := by simpa using hhead
    simp only [hr, Bool.false_eq_true, if_false]
    rw [foldl_cleanStep_of_normal false (Split 47 x) [] hx]
    have hs : (Split 47 x).reverse ++ [] ≠ [] := by
      simp [Split_ne_nil]
    rw [if_neg hs]
    simp
  · refine ⟨if O.head? = some 47 then [47] else [],
      ((Split 47 O).foldl (cleanStep (decide (O.head? = some 47))) []).reverse, ?_, fun x hx => ?_⟩
    · intro f hf
      rw [List.mem_reverse] at hf
      exact foldl_cleanStep_no_slash _ _ [] (by simp) (Split_mem_no_sep 47 O) f hf
    · have hj : Join [O, x] = Clean (O ++ 47 :: x) := by
        simp [Join, hO, intercalate_cons_cons, intercalate_singleton]
      rw [hj]
      unfold Clean
      have hne : O ++ 47 :: x ≠ [] := by simp
      rw [if_neg hne]
      have hhead : (O ++ 47 :: x).head? = O.head? := by
        cases O with
        | nil => exact absurd rfl hO
        | cons c cs => rfl
      simp only [hhead]
      rw [Split_append_sep_all, List.foldl_append,
        foldl_cleanStep_of_normal _ (Split 47 x) _ hx]
      have hs : (Split 47 x).reverse ++
          (Split 47 O).foldl (cleanStep (decide (O.head? = some 47))) [] ≠ [] := by
        simp [Split_ne_nil]
      by_cases hr : O.head? = some 47
      · simp [hr]
      · simp only [hr, decide_False, Bool.false_eq_true, if_false]
        rw [if_neg (by simpa [hr] using hs)]
        simp

/-- Two relative paths of plain elements that `filepath.Join` sends to the same path under
one root are equal. -/
theorem Join_injective_of_local (O x y : GoString) (hx : IsLocal x) (hy : IsLocal y)
    (h : Join [O, x] = Join [O, y]) : x = y := by
  obtain ⟨pre, S, hS, hJ⟩ := Join_of_local O
  rw [hJ x hx, hJ y hy] at h
  have h2 := List.append_cancel_left h
  have hx' : ∀ f ∈ S ++ Split 47 x, (47 : UInt8) ∉ f := by
    intro f hf
    rcases List.mem_append.1 hf with h' | h'
    · exact hS f h'
    · exact Split_mem_no_sep 47 x f h'
  have hy' : ∀ f ∈ S ++ Split 47 y, (47 : UInt8) ∉ f := by
    intro f hf
    rcases List.mem_append.1 hf with h' | h'
    · exact hS f h'
    · exact Split_mem_no_sep 47 y f h'
  have h3 := congrArg (Split 47) h2
  rw [Split_intercalate 47 _ (by simp [Split_ne_nil]) hx',
    Split_intercalate 47 _ (by simp [Split_ne_nil]) hy'] at h3
  exact Split_injective 47 x y (List.append_cancel_left h3)

theorem isLocal_replace_ext (r e : GoString) (hr : IsLocal r) (he : (47 : UInt8) ∉ e)
    (hlen : 3 ≤ e.length) : IsLocal (r.take (r.length - (Ext r).length) ++ e) := by
  intro c hc
  rw [Split_append_no_sep 47 _ e he] at hc
  rcases List.mem_append.1 hc with h | h
  · apply hr
    have hsplit := Split_append_no_sep 47 (r.take (r.length - (Ext r).length)) (Ext r)
      (Ext_no_slash r)
    rw [Ext_suffix] at hsplit
    rw [hsplit]
    exact List.mem_append_left _ h
  · rw [List.mem_singleton] at h
    have hl : 3 ≤ c.length := by
      rw [h, List.length_append]
      omega
    refine ⟨?_, ?_, ?_⟩ <;> intro hc' <;> rw [hc'] at hl <;> simp at hl

theorem destinations_walkFn (tbl : Nat → Nat) (config : Config) (v : Visit) (r : GoString)
    (h : v.err = none) (hd : v.d.IsDir = false)
    (he : isImageExt (ToLower tbl (Ext v.path)) = true)
    (hr : v.sys.rel config.InputFolder v.path = .ok r)
    (hlen : (ToLower tbl (Ext v.path)).length ≤ r.length)
    (hm : v.sys.mkdirAll (Dir (newPathOf config r (ToLower tbl (Ext v.path)))) = none) :
    destinations (walkFn tbl config v).1 = [newPathOf config r (ToLower tbl (Ext v.path))] := by
  rw [walkFn_of_processed tbl config v r h hd he hr (by omega) hm]
  simp only [destinations]
  generalize (processImage v.sys v.path (newPathOf config r (ToLower tbl (Ext v.path))) config).2 = x
  cases x with
  | some e => simp [destinations]
  | none =>
    simp only
    split_ifs <;> simp [destinations]

/-- C4, amended. For a format that passed the check of `main`, two files below the input
root whose extensions are ASCII get the same destination path exactly when their relative
paths are equal up to the extension: files that differ in more than the extension are kept
apart, files that differ in the extension only (`a.jpg`, `a.png`) are not. -/
theorem C4_same_destination_iff (tbl : Nat → Nat) (config : Config) (p1 p2 r1 r2 : GoString)
    (hf : config.TargetFormat = lit "jpg" ∨ config.TargetFormat = lit "png")
    (hp1 : p1 = r1 ∨ ∃ d, p1 = d ++ 47 :: r1) (hp2 : p2 = r2 ∨ ∃ d, p2 = d ++ 47 :: r2)
    (hl1 : IsLocal r1) (hl2 : IsLocal r2)
    (ha1 : (Ext p1).all (fun c => decide (c.toNat < 0x80)) = true)
    (ha2 : (Ext p2).all (fun c => decide (c.toNat < 0x80)) = true) :
    newPathOf config r1 (ToLower tbl (Ext p1)) = newPathOf config r2 (ToLower tbl (Ext p2)) ↔
      r1.take (r1.length - (Ext r1).length) = r2.take (r2.length - (Ext r2).length) := by
  have he1 : Ext r1 = Ext p1 := by
    rcases hp1 with h | ⟨d, h⟩
    · rw [h]
    · rw [h, Ext_append_slash]
  have he2 : Ext r2 = Ext p2 := by
    rcases hp2 with h | ⟨d, h⟩
    · rw [h]
    · rw [h, Ext_append_slash]
  have hn1 : newPathOf config r1 (ToLower tbl (Ext p1)) =
      Join [config.OutputFolder,
        r1.take (r1.length - (Ext r1).length) ++ 46 :: config.TargetFormat] := by
    unfold newPathOf
    rw [ToLower_length_of_ascii tbl _ ha1, he1]
  have hn2 : newPathOf config r2 (ToLower tbl (Ext p2)) =
      Join [config.OutputFolder,
        r2.take (r2.length - (Ext r2).length) ++ 46 :: config.TargetFormat] := by
    unfold newPathOf
    rw [ToLower_length_of_ascii tbl _ ha2, he2]
  rw [hn1, hn2]
  have hfmt : (47 : UInt8) ∉ (46 :: config.TargetFormat) ∧
      3 ≤ (46 :: config.TargetFormat).length := by
    rcases hf with h | h <;> rw [h] <;> exact ⟨by decide, by decide⟩
  constructor
  · intro h
    have := Join_injective_of_local config.OutputFolder _ _
      (isLocal_replace_ext r1 _ hl1 hfmt.1 hfmt.2) (isLocal_replace_ext r2 _ hl2 hfmt.1 hfmt.2) h
    exact List.append_cancel_right this
  · intro h
    rw [h]

/-- C4 (amended) on `source/a.jpg` and `source/b.jpg`: the relative paths differ before the
extension, and the destinations `sink/a.png` and `sink/b.png` differ. -/
theorem C4_same_destination_iff_witness :
    newPathOf exampleConfig (lit "a.jpg") (ToLower exampleTable (Ext (lit "source/a.jpg"))) = lit "sink/a.png" ∧
    newPathOf exampleConfig (lit "b.jpg") (ToLower exampleTable (Ext (lit "source/b.jpg"))) = lit "sink/b.png" ∧
    newPathOf exampleConfig (lit "a.jpg") (ToLower exampleTable (Ext (lit "source/a.jpg"))) ≠
      newPathOf exampleConfig (lit "b.jpg") (ToLower exampleTable (Ext (lit "source/b.jpg"))) :=
  ⟨by decide, by decide, fun h =>
    absurd ((C4_same_destination_iff exampleTable exampleConfig (lit "source/a.jpg") (lit "source/b.jpg")
      (lit "a.jpg") (lit "b.jpg") (Or.inr rfl) (Or.inr ⟨lit "source", rfl⟩)
      (Or.inr ⟨lit "source", rfl⟩) (by unfold IsLocal; decide) (by unfold IsLocal; decide)
      (by decide) (by decide)).1 h) (by decide)⟩

end Ibconv
